import Mathlib

/-!
Verification of the `srinidhiy/agents` repository: a shallow embedding of
`sdr_auto_reply.py` (threaded-conversation store, webhook handlers, email
body cleaning) and of the deep-research pipeline
(`research_manager.py`, `deep_research.py`, `planner_agent.py`),
with theorems settling the specification's claims about them.

Text is modelled as `List Char`; Python string operations (`lower`,
`strip`, `replace`, `split`, `join`, `in`, `startswith`) are embedded as
executable functions with Python's semantics.  SQLite tables are modelled
as lists of rows; `CURRENT_TIMESTAMP` is an explicit `Nat` argument.
The external agent runtime (`Runner.run`), the email provider, and the
HTTP framework are oracles passed as function arguments.
-/

set_option maxHeartbeats 1000000
set_option maxRecDepth 100000

namespace Agents

/-- Text of the Python program: a list of characters. -/
abbrev Text := List Char

/-- Coerce a Lean string literal to `Text`. -/
def toText (s : String) : Text := s.toList

/-- Python's whitespace test used by `str.strip()` (ASCII whitespace). -/
def pyIsSpace (c : Char) : Bool :=
  c == ' ' || c == '\t' || c == '\n' || c == '\r' || c == '\x0b' || c == '\x0c'

/-- Left strip of characters satisfying `p` (Python `lstrip`). -/
def lstripOn (p : Char → Bool) (s : Text) : Text := s.dropWhile p

/-- Right strip of characters satisfying `p` (Python `rstrip`). -/
def rstripOn (p : Char → Bool) (s : Text) : Text := (s.reverse.dropWhile p).reverse

/-- Both-ends strip (Python `strip` with a character class). -/
def pyStripOn (p : Char → Bool) (s : Text) : Text := rstripOn p (lstripOn p s)

/-- Python `str.strip()`: remove leading and trailing whitespace. -/
def pyStrip (s : Text) : Text := pyStripOn pyIsSpace s

/-- Python `str.lower()` (ASCII case folding suffices for the inputs here). -/
def pyLower (s : Text) : Text := s.map Char.toLower

/-- Python `str.startswith`. -/
def pyStartsWith (pat s : Text) : Bool := pat.isPrefixOf s

/-- Python substring containment `pat in s`. -/
def containsSub (pat : Text) : Text → Bool
  | [] => pat.isEmpty
  | c :: rest => pat.isPrefixOf (c :: rest) || containsSub pat rest

/-- Scanning loop of Python `str.replace`, with explicit fuel so that the
recursion is structural (`fuel := s.length` always suffices, since every
step consumes at least one character). -/
def pyReplaceGo (pat repl : Text) : Nat → Text → Text
  | 0, s => s
  | _, [] => []
  | fuel + 1, c :: rest =>
    if !pat.isEmpty && pat.isPrefixOf (c :: rest) then
      repl ++ pyReplaceGo pat repl fuel ((c :: rest).drop pat.length)
    else
      c :: pyReplaceGo pat repl fuel rest

/-- Python `str.replace(pat, repl)`: left-to-right, non-overlapping.
For the (unused here) empty pattern it returns the string unchanged. -/
def pyReplace (pat repl s : Text) : Text := pyReplaceGo pat repl s.length s

/-- Scanning loop of Python `str.split`, with explicit fuel
(`fuel := s.length` always suffices). -/
def pySplitGo (sep : Text) : Nat → Text → List Text
  | 0, s => [s]
  | _, [] => [[]]
  | fuel + 1, c :: rest =>
    if !sep.isEmpty && sep.isPrefixOf (c :: rest) then
      [] :: pySplitGo sep fuel ((c :: rest).drop sep.length)
    else
      match pySplitGo sep fuel rest with
      | [] => [[c]]
      | l :: t => (c :: l) :: t

/-- Python `str.split(sep)` for a non-empty separator.
For the (unused here) empty separator it returns `[s]`. -/
def pySplit (sep s : Text) : List Text := pySplitGo sep s.length s

/-- Python `body.split('\n')`. -/
def splitLines : Text → List Text
  | [] => [[]]
  | c :: rest =>
    if c = '\n' then [] :: splitLines rest
    else
      match splitLines rest with
      | [] => [[c]]
      | l :: t => (c :: l) :: t

/-- Python `'\n'.join(lines)`. -/
def joinLines : List Text → Text
  | [] => []
  | [l] => l
  | l :: l2 :: rest => l ++ '\n' :: joinLines (l2 :: rest)

/-- Append a character to the last line of a non-empty line list (helper
for reasoning about `splitLines` of an extended string). -/
def appendToLast (c : Char) : List Text → List Text
  | [] => [[c]]
  | [l] => [l ++ [c]]
  | l :: l2 :: rest => l :: appendToLast c (l2 :: rest)

/-- Decimal rendering of a natural number (for f-string interpolation). -/
def natToText (n : Nat) : Text := Nat.toDigits 10 n

/-! ### MD5 (RFC 1321), used by `generate_thread_id` via `hashlib.md5` -/

namespace MD5

/-- 2^32, the word modulus. -/
def M32 : Nat := 4294967296

/-- Addition modulo 2^32. -/
def add32 (a b : Nat) : Nat := (a + b) % M32

/-- Bitwise complement within 32 bits. -/
def not32 (x : Nat) : Nat := 4294967295 ^^^ x

/-- Left rotation of a 32-bit word. -/
def rotl32 (x n : Nat) : Nat := ((x <<< n) ||| (x >>> (32 - n))) % M32

/-- The 64 sine-derived round constants of RFC 1321. -/
def Ktab : List Nat :=
  [0xd76aa478, 0xe8c7b756, 0x242070db, 0xc1bdceee,
   0xf57c0faf, 0x4787c62a, 0xa8304613, 0xfd469501,
   0x698098d8, 0x8b44f7af, 0xffff5bb1, 0x895cd7be,
   0x6b901122, 0xfd987193, 0xa679438e, 0x49b40821,
   0xf61e2562, 0xc040b340, 0x265e5a51, 0xe9b6c7aa,
   0xd62f105d, 0x02441453, 0xd8a1e681, 0xe7d3fbc8,
   0x21e1cde6, 0xc33707d6, 0xf4d50d87, 0x455a14ed,
   0xa9e3e905, 0xfcefa3f8, 0x676f02d9, 0x8d2a4c8a,
   0xfffa3942, 0x8771f681, 0x6d9d6122, 0xfde5380c,
   0xa4beea44, 0x4bdecfa9, 0xf6bb4b60, 0xbebfbc70,
   0x289b7ec6, 0xeaa127fa, 0xd4ef3085, 0x04881d05,
   0xd9d4d039, 0xe6db99e5, 0x1fa27cf8, 0xc4ac5665,
   0xf4292244, 0x432aff97, 0xab9423a7, 0xfc93a039,
   0x655b59c3, 0x8f0ccc92, 0xffeff47d, 0x85845dd1,
   0x6fa87e4f, 0xfe2ce6e0, 0xa3014314, 0x4e0811a1,
   0xf7537e82, 0xbd3af235, 0x2ad7d2bb, 0xeb86d391]

/-- The per-round left-rotation amounts of RFC 1321. -/
def Stab : List Nat :=
  [7, 12, 17, 22, 7, 12, 17, 22, 7, 12, 17, 22, 7, 12, 17, 22,
   5, 9, 14, 20, 5, 9, 14, 20, 5, 9, 14, 20, 5, 9, 14, 20,
   4, 11, 16, 23, 4, 11, 16, 23, 4, 11, 16, 23, 4, 11, 16, 23,
   6, 10, 15, 21, 6, 10, 15, 21, 6, 10, 15, 21, 6, 10, 15, 21]

/-- One of the 64 MD5 operations on the state `(a, b, c, d)`. -/
def md5step (Mw : List Nat) (st : Nat × Nat × Nat × Nat) (i : Nat) :
    Nat × Nat × Nat × Nat :=
  let a := st.1
  let b := st.2.1
  let c := st.2.2.1
  let d := st.2.2.2
  let fg : Nat × Nat :=
    if i < 16 then ((b &&& c) ||| (not32 b &&& d), i)
    else if i < 32 then ((d &&& b) ||| (not32 d &&& c), (5 * i + 1) % 16)
    else if i < 48 then (b ^^^ c ^^^ d, (3 * i + 5) % 16)
    else (c ^^^ (b ||| not32 d), (7 * i) % 16)
  let tmp := add32 (add32 (add32 a fg.1) (Ktab.getD i 0)) (Mw.getD fg.2 0)
  (d, add32 b (rotl32 tmp (Stab.getD i 0)), b, c)

/-- Process one 512-bit block given as 16 little-endian words. -/
def md5block (st : Nat × Nat × Nat × Nat) (Mw : List Nat) : Nat × Nat × Nat × Nat :=
  let r := (List.range 64).foldl (md5step Mw) st
  (add32 st.1 r.1, add32 st.2.1 r.2.1, add32 st.2.2.1 r.2.2.1, add32 st.2.2.2 r.2.2.2)

/-- `k` little-endian bytes of `n`. -/
def leBytes : Nat → Nat → List Nat
  | 0, _ => []
  | k + 1, n => (n % 256) :: leBytes k (n / 256)

/-- Partition loop for 64-byte blocks, with explicit fuel so that the
recursion is structural (`fuel := l.length` always suffices). -/
def chunks64Go : Nat → List Nat → List (List Nat)
  | 0, _ => []
  | _, [] => []
  | fuel + 1, b :: rest => ((b :: rest).take 64) :: chunks64Go fuel ((b :: rest).drop 64)

/-- Partition a byte string into 64-byte blocks. -/
def chunks64 (l : List Nat) : List (List Nat) := chunks64Go l.length l

/-- MD5 padding: append `0x80`, zeros to 56 mod 64, then the 64-bit
little-endian bit length. -/
def md5pad (msg : List Nat) : List Nat :=
  let z := (119 - (msg.length % 64)) % 64
  msg ++ [0x80] ++ List.replicate z 0 ++ leBytes 8 ((msg.length * 8) % (2 ^ 64))

/-- The 16 little-endian message words of a 64-byte block. -/
def wordsOf (block : List Nat) : List Nat :=
  (List.range 16).map (fun j =>
    block.getD (4 * j) 0 + 256 * block.getD (4 * j + 1) 0 +
      65536 * block.getD (4 * j + 2) 0 + 16777216 * block.getD (4 * j + 3) 0)

/-- The MD5 state after absorbing the whole padded message. -/
def md5core (msg : List Nat) : Nat × Nat × Nat × Nat :=
  (chunks64 (md5pad msg)).foldl (fun st blk => md5block st (wordsOf blk))
    (0x67452301, 0xefcdab89, 0x98badcfe, 0x10325476)

/-- Lower-case hex digit. -/
def hexChar (n : Nat) : Char := if n < 10 then Char.ofNat (48 + n) else Char.ofNat (87 + n)

/-- Two hex digits of a byte. -/
def byteHex (b : Nat) : List Char := [hexChar (b / 16), hexChar (b % 16)]

/-- `hashlib.md5(bytes).hexdigest()` as a character list. -/
def md5hex (msg : List Nat) : Text :=
  let st := md5core msg
  ((leBytes 4 st.1 ++ leBytes 4 st.2.1 ++ leBytes 4 st.2.2.1 ++
      leBytes 4 st.2.2.2).map byteHex).flatten

end MD5

/-- UTF-8/ASCII bytes of a text (all program inputs here are ASCII). -/
def textBytes (s : Text) : List Nat := s.map Char.toNat

/-! ## `sdr_auto_reply.py`: threaded-conversation store and webhook server -/

namespace SDR

/-- The tokens removed from the subject by `generate_thread_id`
(lines 90-92), in source order. -/
def subjectTokens : List Text :=
  [toText "re:", toText "fwd:", toText "fw:", toText "re: ", toText "fwd: ", toText "fw: "]

/-- Lines 90-93: lower-case the subject, remove every occurrence of each
token in sequence via `str.replace`, then strip. -/
def cleanSubject (subject : Text) : Text :=
  pyStrip (subjectTokens.foldl (fun s p => pyReplace p [] s) (pyLower subject))

/-- `generate_thread_id` (lines 87-97): the first 12 hex characters of the
MD5 digest of `f"{email.lower()}:{clean_subject}"`. -/
def generate_thread_id (email subject : Text) : Text :=
  (MD5.md5hex (textBytes (pyLower email ++ [':'] ++ cleanSubject subject))).take 12

/-- The claim's subject normalization, written from the claim's words and
not from the code: lower-case, then repeatedly remove a leading
`re:`/`fwd:`/`fw:` prefix, stripping whitespace around each removal.
Used only to compare the spec's reading against `cleanSubject`. -/
def stripLeadingTokens : Nat → Text → Text
  | 0, s => s
  | fuel + 1, s =>
    let t := pyStrip s
    if pyStartsWith (toText "re:") t then stripLeadingTokens fuel (t.drop 3)
    else if pyStartsWith (toText "fwd:") t then stripLeadingTokens fuel (t.drop 4)
    else if pyStartsWith (toText "fw:") t then stripLeadingTokens fuel (t.drop 3)
    else t

/-- The claim's normalized subject: lower-cased, leading reply/forward
prefixes removed, whitespace stripped (from the claim's words). -/
def specNormalizeSubject (s : Text) : Text := stripLeadingTokens s.length (pyLower s)

/-- A row of the `conversations` table (the AUTOINCREMENT `id` column is
not consulted by any query and is omitted). -/
structure ConvRow where
  thread_id : Text
  prospect_email : Text
  prospect_name : Text
  subject : Text
  status : Text
  created_at : Nat
  updated_at : Nat
deriving DecidableEq

/-- A row of the `messages` table. -/
structure MsgRow where
  thread_id : Text
  direction : Text
  sender : Text
  recipient : Text
  subject : Text
  body : Text
  created_at : Nat
deriving DecidableEq

/-- The SQLite database: the two tables as row lists in insertion order. -/
structure DB where
  conversations : List ConvRow
  messages : List MsgRow
deriving DecidableEq

/-- `get_or_create_conversation` (lines 99-124).  `now` models
`CURRENT_TIMESTAMP`.  The `UPDATE ... SET updated_at` branch touches every
row whose `thread_id` matches (at most one, by the UNIQUE constraint). -/
def get_or_create_conversation (now : Nat)
    (prospect_email prospect_name subject : Text) (db : DB) : Text × DB :=
  let thread_id := generate_thread_id prospect_email subject
  match db.conversations.find? (fun c => c.thread_id == thread_id) with
  | none =>
      (thread_id, { db with conversations := db.conversations ++
        [{ thread_id := thread_id, prospect_email := prospect_email,
           prospect_name := prospect_name, subject := subject,
           status := toText "active", created_at := now, updated_at := now }] })
  | some _ =>
      let touched := db.conversations.map
        (fun c => if c.thread_id == thread_id then { c with updated_at := now } else c)
      (thread_id, { db with conversations := touched })

/-- `save_message` (lines 126-139): INSERT a row into `messages`. -/
def save_message (now : Nat)
    (thread_id direction sender recipient subject body : Text) (db : DB) : DB :=
  { db with messages := db.messages ++
    [{ thread_id := thread_id, direction := direction, sender := sender,
       recipient := recipient, subject := subject, body := body,
       created_at := now }] }

/-- Insertion step of one *admissible* realisation of
`ORDER BY created_at ASC` (a stable insertion sort).  SQLite leaves the
relative order of rows with equal sort keys unspecified, so this is only
one of the orders the query may return; it is used to build concrete
engines for witnesses and counterexamples, never as the semantics. -/
def insertByCreatedAt (m : MsgRow) : List MsgRow → List MsgRow
  | [] => [m]
  | x :: xs =>
    if x.created_at < m.created_at then x :: insertByCreatedAt m xs
    else m :: x :: xs

/-- One admissible `ORDER BY created_at ASC` engine (ties kept in table
order); see `insertByCreatedAt`. -/
def orderByCreatedAtAsc (l : List MsgRow) : List MsgRow :=
  l.foldr insertByCreatedAt []

/-- What SQLite guarantees of `ORDER BY created_at ASC`: the result is a
permutation of the rows, non-decreasing in `created_at`.  The relative
order of equal-`created_at` rows is undefined, so the row order actually
returned is a choice of the engine, modelled as a function satisfying
this predicate. -/
def SortsByCreatedAt (engine : List MsgRow → List MsgRow) : Prop :=
  ∀ l, (engine l).Perm l ∧
    (engine l).Pairwise (fun a b => a.created_at ≤ b.created_at)

/-- `get_conversation_history` (lines 141-165): all `messages` rows of the
thread, as ordered by the database's `ORDER BY created_at ASC` engine
(`engine`; constrained by `SortsByCreatedAt` in the theorems, since tie
order is unspecified). -/
def get_conversation_history (engine : List MsgRow → List MsgRow)
    (thread_id : Text) (db : DB) : List MsgRow :=
  engine (db.messages.filter (fun m => m.thread_id == thread_id))

/-! ### `clean_email_body` (lines 353-376) -/

/-- `line.strip().startswith('>')`. -/
def startsGtLine (line : Text) : Bool := pyStartsWith (toText ">") (pyStrip line)

/-- `'On ' in line and ' wrote:' in line`. -/
def isOnWroteLine (line : Text) : Bool :=
  containsSub (toText "On ") line && containsSub (toText " wrote:") line

/-- `line.strip().startswith('From:') and '@' in line`. -/
def isFromAtLine (line : Text) : Bool :=
  pyStartsWith (toText "From:") (pyStrip line) && containsSub (toText "@") line

/-- `'-------- Original Message --------' in line`. -/
def isDividerLine (line : Text) : Bool :=
  containsSub (toText "-------- Original Message --------") line

/-- `line.strip() == '--'`. -/
def isSigDelimLine (line : Text) : Bool := pyStrip line == toText "--"

/-- The loop of `clean_email_body`: skip quoted lines, stop at the first
reply marker or signature delimiter, keep the rest. -/
def keepLines : List Text → List Text
  | [] => []
  | line :: rest =>
    if startsGtLine line then keepLines rest
    else if isOnWroteLine line then []
    else if isFromAtLine line then []
    else if isDividerLine line then []
    else if isSigDelimLine line then []
    else line :: keepLines rest

/-- `clean_email_body`: split into lines, run the keep/skip/stop loop,
rejoin with newlines, strip the result. -/
def clean_email_body (body : Text) : Text :=
  pyStrip (joinLines (keepLines (splitLines body)))

/-- Any of the four stop conditions of the `clean_email_body` loop: a
reply marker or the signature delimiter. -/
def isMarkerLine (l : Text) : Bool :=
  isOnWroteLine l || isFromAtLine l || isDividerLine l || isSigDelimLine l

/-- Index of the first element satisfying `q`. -/
def findLineIdx (q : Text → Bool) : List Text → Option Nat
  | [] => none
  | l :: rest => if q l then some 0 else (findLineIdx q rest).map (· + 1)

/-- Index of the first line matching a reply marker or the signature
delimiter, quoted or not (the claim's reading). -/
def firstMarkerIdx (L : List Text) : Option Nat := findLineIdx isMarkerLine L

/-- The claim's part (c) as stated: every line of the cleaned output is
whitespace or has the content of an input line strictly before the first
marker line. -/
def noContentAtOrAfterMarker (body : Text) : Prop :=
  ∀ k, firstMarkerIdx (splitLines body) = some k →
    ∀ l ∈ splitLines (clean_email_body body), pyStrip l = [] ∨
      ∃ lp ∈ (splitLines body).take k, pyStrip l = pyStrip lp

/-- Index of the first non-quoted marker line: the line at which the
`clean_email_body` loop actually breaks, since quoted lines are skipped
by `continue` before the marker checks. -/
def firstUnquotedMarkerIdx (L : List Text) : Option Nat :=
  findLineIdx (fun l => !startsGtLine l && isMarkerLine l) L

/-! ### HTTP endpoints -/

/-- A JSON value, as produced by Flask's `jsonify`. -/
inductive Json where
  | str : Text → Json
  | num : Nat → Json
  | bool : Bool → Json
  | null : Json
  | arr : List Json → Json
  | obj : List (Text × Json) → Json

/-- Field lookup in a JSON object. -/
def Json.lookup (j : Json) (key : Text) : Option Json :=
  match j with
  | .obj kvs => kvs.lookup key
  | _ => none

/-- An HTTP response: status code plus JSON body. -/
structure HttpResponse where
  code : Nat
  body : Json

/-- `GET /health` (lines 253-256). -/
def health_check : HttpResponse :=
  { code := 200,
    body := .obj [(toText "status", .str (toText "healthy")),
                  (toText "service", .str (toText "SDR Auto-Reply"))] }

/-- Insertion step of one admissible realisation of
`ORDER BY c.updated_at DESC` (stable descending insertion sort); as with
`insertByCreatedAt`, equal-key order is unspecified by SQLite, so this is
used only to build concrete engines for witnesses. -/
def insertByUpdatedAtDesc (c : ConvRow) : List ConvRow → List ConvRow
  | [] => [c]
  | x :: xs =>
    if x.updated_at > c.updated_at then x :: insertByUpdatedAtDesc c xs
    else c :: x :: xs

/-- One admissible `ORDER BY c.updated_at DESC` engine. -/
def orderByUpdatedAtDesc (l : List ConvRow) : List ConvRow :=
  l.foldr insertByUpdatedAtDesc []

/-- What SQLite guarantees of `ORDER BY c.updated_at DESC`: a permutation
of the rows, non-increasing in `updated_at`; equal-key order undefined. -/
def SortsByUpdatedAtDesc (engine : List ConvRow → List ConvRow) : Prop :=
  ∀ l, (engine l).Perm l ∧
    (engine l).Pairwise (fun a b => b.updated_at ≤ a.updated_at)

/-- One entry of the `/conversations` listing: the conversation columns
plus `COUNT(m.id)` of the LEFT-JOINed messages, which is the number of
`messages` rows carrying this `thread_id`. -/
def convJson (db : DB) (c : ConvRow) : Json :=
  .obj [(toText "thread_id", .str c.thread_id),
        (toText "prospect_email", .str c.prospect_email),
        (toText "prospect_name", .str c.prospect_name),
        (toText "subject", .str c.subject),
        (toText "status", .str c.status),
        (toText "created_at", .num c.created_at),
        (toText "message_count",
         .num (db.messages.filter (fun m => m.thread_id == c.thread_id)).length)]

/-- `GET /conversations` (lines 378-406); `lengine` is the database's
`ORDER BY c.updated_at DESC` engine. -/
def list_conversations (lengine : List ConvRow → List ConvRow)
    (db : DB) : HttpResponse :=
  { code := 200,
    body := .arr ((lengine db.conversations).map (convJson db)) }

/-- The JSON rendering of one history message (lines 154-162). -/
def msgJson (m : MsgRow) : Json :=
  .obj [(toText "direction", .str m.direction),
        (toText "sender", .str m.sender),
        (toText "recipient", .str m.recipient),
        (toText "subject", .str m.subject),
        (toText "body", .str m.body),
        (toText "timestamp", .num m.created_at)]

/-- `GET /conversations/<thread_id>` (lines 408-412); `engine` is the
database's `ORDER BY created_at ASC` engine. -/
def get_conversation (engine : List MsgRow → List MsgRow)
    (thread_id : Text) (db : DB) : HttpResponse :=
  { code := 200,
    body := .arr ((get_conversation_history engine thread_id db).map msgJson) }

/-! ### `POST /webhook/email` and `POST /test/simulate` -/

/-- The default of `SENDGRID_VERIFIED_SENDER` (line 171; the environment
override is not modelled). -/
def YOUR_EMAIL : Text := toText "srinidhiyerraguntala@gmail.com"

/-- Outcome of `send_reply_email` (lines 173-192): that function has its
own internal `try/except` and always returns a status dictionary, so it is
modelled as an oracle returning this sum, never raising. -/
inductive SendResult where
  | success (code : Nat)
  | error (message : Text)

/-- `send_result["status"] == "success"`. -/
def SendResult.isSuccess : SendResult → Bool
  | .success _ => true
  | .error _ => false

/-- Lines 277-281: split `"Name <email@example.com>"` into name and
address; otherwise the local part is the name.  Returns (name, email). -/
def parseSender (raw : Text) : Text × Text :=
  if containsSub (toText "<") raw && containsSub (toText ">") raw then
    (pyStripOn (fun c => c == '"') (pyStrip ((pySplit (toText "<") raw).getD 0 [])),
     (pySplit (toText ">") ((pySplit (toText "<") raw).getD 1 [])).getD 0 [])
  else
    ((pySplit (toText "@") raw).getD 0 [], raw)

/-- Lines 337 and 477: prefix `Re:` unless already present. -/
def replySubject (subject : Text) : Text :=
  if !pyStartsWith (toText "re:") (pyLower subject) then toText "Re: " ++ subject
  else subject

/-- The form fields extracted from the SendGrid POST (lines 275-286),
after the `.get` defaults have been applied. -/
structure EmailForm where
  fromAddr : Text
  toAddr : Text
  subject : Text
  text : Text
  html : Text

/-- The body of the `try` block of `receive_email` (lines 274-345).
`gen` is the `generate_response` agent call, the only modelled raise site
(it reaches the network); `send` is `send_reply_email`, which never
raises.  On a raise, the database changes already committed persist, so
the `error` value carries the database state at the point of failure.
`engine` is the `ORDER BY created_at ASC` engine used when reading the
history. -/
def processEmail (engine : List MsgRow → List MsgRow)
    (gen : List MsgRow → Text → Except Text Text)
    (send : Text → Text → Text → SendResult)
    (now : Nat) (form : EmailForm) (db : DB) :
    Except (Text × DB) (HttpResponse × DB) :=
  let ns := parseSender form.fromAddr
  let sender_name := ns.1
  let sender_email := ns.2
  let recipient := form.toAddr
  let subject := form.subject
  let body0 := if !form.text.isEmpty then form.text else form.html
  let body := clean_email_body body0
  let tdb := get_or_create_conversation now sender_email sender_name subject db
  let thread_id := tdb.1
  let db2 := save_message now thread_id (toText "inbound") sender_email recipient
    subject body tdb.2
  let history := get_conversation_history engine thread_id db2
  match gen history body with
  | .error e => .error (e, db2)
  | .ok response_body =>
    let send_result := send sender_email subject response_body
    let db3 :=
      if send_result.isSuccess then
        save_message now thread_id (toText "outbound") YOUR_EMAIL sender_email
          (replySubject subject) response_body db2
      else db2
    .ok ({ code := 200,
           body := .obj [(toText "status", .str (toText "processed")),
                         (toText "thread_id", .str thread_id),
                         (toText "response_sent", .bool send_result.isSuccess)] },
         db3)

/-- `POST /webhook/email` (lines 258-351): the `try/except` wrapper, which
converts any raise into a 500 response with an error-status JSON body. -/
def receive_email (engine : List MsgRow → List MsgRow)
    (gen : List MsgRow → Text → Except Text Text)
    (send : Text → Text → Text → SendResult)
    (now : Nat) (form : EmailForm) (db : DB) : HttpResponse × DB :=
  match processEmail engine gen send now form db with
  | .ok r => r
  | .error ed =>
    ({ code := 500,
       body := .obj [(toText "status", .str (toText "error")),
                     (toText "message", .str ed.1)] }, ed.2)

/-- The JSON fields of the `/test/simulate` request (lines 427-432), after
the `.get` defaults have been applied. -/
structure SimData where
  fromAddr : Text
  name : Text
  subject : Text
  body : Text

/-- `POST /test/simulate` (lines 414-486).  This handler has no
`try/except`: a raise from the agent call propagates out (yielding a
framework error page), which the `Except` result records. -/
def simulate_incoming_email (engine : List MsgRow → List MsgRow)
    (gen : List MsgRow → Text → Except Text Text)
    (send : Text → Text → Text → SendResult)
    (now : Nat) (data : SimData) (db : DB) :
    Except Text (HttpResponse × DB) :=
  let tdb := get_or_create_conversation now data.fromAddr data.name data.subject db
  let thread_id := tdb.1
  let db2 := save_message now thread_id (toText "inbound") data.fromAddr YOUR_EMAIL
    data.subject data.body tdb.2
  let history := get_conversation_history engine thread_id db2
  match gen history data.body with
  | .error e => .error e
  | .ok response_body =>
    let send_result := send data.fromAddr data.subject response_body
    let db3 :=
      if send_result.isSuccess then
        save_message now thread_id (toText "outbound") YOUR_EMAIL data.fromAddr
          (replySubject data.subject) response_body db2
      else db2
    .ok ({ code := 200,
           body := .obj [(toText "status", .str (toText "processed")),
                         (toText "thread_id", .str thread_id),
                         (toText "response_body", .str response_body),
                         (toText "email_sent", .bool send_result.isSuccess)] },
         db3)

end SDR

/-! ## Deep research pipeline (`research_manager.py`, `planner_agent.py`,
`deep_research.py`) -/

namespace DeepResearch

/-- `WebSearchItem` (planner_agent.py, lines 18-20). -/
structure WebSearchItem where
  reason : Text
  query : Text
deriving DecidableEq

/-- `WebSearchPlan` (planner_agent.py, lines 22-23). -/
structure WebSearchPlan where
  searches : List WebSearchItem
deriving DecidableEq

/-- `FollowUpQuestions` (planner_agent.py, lines 15-16). -/
structure FollowUpQuestions where
  questions : List Text
deriving DecidableEq

/-- Modelled from the spec: `ReportData` lives in `writer_agent.py`, which
is not among the source files; the spec's data model has "a final report"
rendered as a markdown string, and `research_manager.py` reads only its
`markdown_report` field. -/
structure ReportData where
  markdown_report : Text
deriving DecidableEq

/-- The input f-string of `ResearchManager.search` (line 70). -/
def searchInput (item : WebSearchItem) : Text :=
  toText "Search term: " ++ item.query ++
    toText "\nReason for searching: " ++ item.reason

/-- `ResearchManager.search` (lines 68-78): build the search input, run
the search agent, and return `none` if the agent call raised. -/
def search (runner : Text → Except Text Text) (item : WebSearchItem) : Option Text :=
  match runner (searchInput item) with
  | .ok r => some r
  | .error _ => none

/-- `ResearchManager.perform_searches` (lines 53-66): await every task in
completion order (`completionOrder`, a permutation of the plan chosen by
the scheduler), appending each non-`None` result and counting every
completed task.  Returns (results, num_completed). -/
def perform_searches (runner : Text → Except Text Text)
    (completionOrder : List WebSearchItem) : List Text × Nat :=
  completionOrder.foldl
    (fun acc item =>
      match search runner item with
      | some r => (acc.1 ++ [r], acc.2 + 1)
      | none => (acc.1, acc.2 + 1))
    ([], 0)

/-- The `qa_text` f-string join of `plan_searches` (line 43):
`"\n".join(f"Q: {q}\nA: {a}" for q, a in zip(questions, answers))`. -/
def qaText (questions answers : List Text) : Text :=
  joinLines ((questions.zip answers).map
    (fun qa => toText "Q: " ++ qa.1 ++ toText "\nA: " ++ qa.2))

/-- The planner input of `plan_searches` (line 44). -/
def plannerInput (query : Text) (questions answers : List Text) : Text :=
  toText "Original Query: " ++ query ++
    toText "\n\nFollow-up Questions and User's Answers:\n" ++
    qaText questions answers

/-- `ResearchManager.plan_searches` (lines 39-51).  The second component
logs the inputs passed to the planner agent (exactly one call). -/
def plan_searches (runner : Text → WebSearchPlan)
    (query : Text) (questions answers : List Text) : WebSearchPlan × List Text :=
  (runner (plannerInput query questions answers),
   [plannerInput query questions answers])

/-- Python `repr` of a list of strings, as interpolated by the f-string of
`write_report` (line 83); escaping of special characters inside the
strings is not modelled. -/
def pyListRepr (l : List Text) : Text :=
  ['['] ++ List.intercalate (toText ", ") (l.map (fun s => '\'' :: (s ++ ['\'']))) ++ [']']

/-- The writer input of `write_report` (line 83). -/
def writeInput (query : Text) (results : List Text) : Text :=
  toText "Original query: " ++ query ++
    toText "\nSummarized search results: " ++ pyListRepr results

/-- One observable event of the `ResearchManager.run` generator: an
awaited stage, or a `yield`ed string. -/
inductive RunEvent where
  | stagePlan (plan : WebSearchPlan)
  | stageSearch (results : List Text)
  | stageWrite (report : ReportData)
  | stageEmail (input : Text)
  | yielded (s : Text)
deriving DecidableEq

/-- The four pipeline stages of `ResearchManager.run`, in claimed order. -/
inductive StageTag where
  | plan
  | searchWeb
  | write
  | email
deriving DecidableEq

/-- The stage (if any) that a run event marks. -/
def RunEvent.tagOf : RunEvent → Option StageTag
  | .stagePlan _ => some .plan
  | .stageSearch _ => some .searchWeb
  | .stageWrite _ => some .write
  | .stageEmail _ => some .email
  | .yielded _ => none

/-- Whether a run event is a `yield`ed string. -/
def RunEvent.isYield : RunEvent → Bool
  | .yielded _ => true
  | _ => false

/-- The external agent runtime and scheduler behaviour `run` depends on:
the planner, search, writer and email agents, the completion order the
event loop chooses for the parallel searches, and the generated trace
id. -/
structure RunOracles where
  planner : Text → WebSearchPlan
  searchRunner : Text → Except Text Text
  searchOrder : List WebSearchItem → List WebSearchItem
  writer : Text → ReportData
  traceId : Text

/-- `ResearchManager.run` (lines 21-36), as the temporal sequence of its
stage executions and `yield`s. -/
def runPipeline (O : RunOracles) (query : Text)
    (questions answers : List Text) : List RunEvent :=
  let traceMsg := toText "View trace: https://platform.openai.com/traces/trace?trace_id="
    ++ O.traceId
  let plan := (plan_searches O.planner query questions answers).1
  let results := (perform_searches O.searchRunner (O.searchOrder plan.searches)).1
  let report := O.writer (writeInput query results)
  [ .yielded traceMsg,
    .stagePlan plan,
    .yielded (toText "Searches planned, starting to search..."),
    .stageSearch results,
    .yielded (toText "Searches complete, writing report..."),
    .stageWrite report,
    .yielded (toText "Report written, sending email..."),
    .stageEmail report.markdown_report,
    .yielded (toText "Email sent, research complete"),
    .yielded report.markdown_report ]

/-- `ResearchManager.generate_questions` (research_manager.py, lines
10-19).  The second component logs the inputs passed to the query
agent. -/
def manager_generate_questions (runner : Text → FollowUpQuestions)
    (query : Text) : List Text × List Text :=
  ((runner (toText "Query: " ++ query)).questions, [toText "Query: " ++ query])

/-- A `gr.update(visible=...)` value. -/
structure GrUpdate where
  visible : Bool
deriving DecidableEq

/-- The UI handler `generate_questions` (deep_research.py, lines 9-16).
Returns ((questions, qa-section update, status message), log of agent
inputs). -/
def ui_generate_questions (runner : Text → FollowUpQuestions)
    (query : Text) : (List Text × GrUpdate × Text) × List Text :=
  if (pyStrip query).isEmpty then
    (([], ⟨false⟩, toText "Please enter a research topic first."), [])
  else
    let qc := manager_generate_questions runner query
    ((qc.1, ⟨true⟩,
      toText "Please answer the " ++ natToText qc.1.length ++
        toText " questions below to help focus the research:"), qc.2)

end DeepResearch

/-! ## Concrete instances used by witnesses and counterexamples -/

namespace Examples

open SDR DeepResearch

/-- A search item whose search succeeds. -/
def exItem1 : WebSearchItem := { reason := toText "r1", query := toText "q1" }

/-- A search item whose search raises. -/
def exItem2 : WebSearchItem := { reason := toText "r2", query := toText "q2" }

/-- A two-item search plan. -/
def exPlan : WebSearchPlan := { searches := [exItem1, exItem2] }

/-- A search-agent oracle that raises exactly on the `q2` search. -/
def exSearchRunner : Text → Except Text Text := fun t =>
  if containsSub (toText "q2") t then Except.error (toText "network error")
  else Except.ok (toText "result one")

/-- A query-agent oracle returning no follow-up questions. -/
def exQuestionsRunner : Text → FollowUpQuestions := fun _ => { questions := [] }

/-- A planner-agent oracle returning the fixed two-item plan. -/
def exPlannerRunner : Text → WebSearchPlan := fun _ => exPlan

/-- A writer-agent oracle returning a fixed report. -/
def exWriter : Text → ReportData := fun _ => { markdown_report := toText "# Report" }

/-- Oracles for a pipeline run whose scheduler completes searches in
reverse launch order. -/
def exOracles : RunOracles :=
  { planner := exPlannerRunner, searchRunner := exSearchRunner,
    searchOrder := fun l => l.reverse, writer := exWriter,
    traceId := toText "trace1" }

/-- A response generator that succeeds. -/
def exGenOk : List MsgRow → Text → Except Text Text := fun _ _ => Except.ok (toText "Thanks!")

/-- A response generator that raises. -/
def exGenFail : List MsgRow → Text → Except Text Text := fun _ _ => Except.error (toText "boom")

/-- A send oracle that reports success. -/
def exSendOk : Text → Text → Text → SendResult := fun _ _ _ => SendResult.success 202

/-- A webhook form payload. -/
def exForm : EmailForm :=
  { fromAddr := toText "John <j@x.com>", toAddr := toText "me@c.com",
    subject := toText "Hello", text := toText "Hi there", html := [] }

/-- A simulate-endpoint payload. -/
def exSim : SimData :=
  { fromAddr := toText "p@x.com", name := toText "P",
    subject := toText "S", body := toText "B" }

/-- First message of thread `t` (timestamp 1). -/
def exMsg1 : MsgRow :=
  { thread_id := toText "t", direction := toText "inbound", sender := toText "a",
    recipient := toText "b", subject := toText "s", body := toText "m1", created_at := 1 }

/-- Second message of thread `t`, same timestamp as the first. -/
def exMsg2 : MsgRow :=
  { thread_id := toText "t", direction := toText "outbound", sender := toText "b",
    recipient := toText "a", subject := toText "s", body := toText "m2", created_at := 1 }

/-- A message of another thread `u` (timestamp 2). -/
def exMsg3 : MsgRow :=
  { thread_id := toText "u", direction := toText "inbound", sender := toText "c",
    recipient := toText "b", subject := toText "s2", body := toText "m3", created_at := 2 }

/-- A conversation row for thread `t`. -/
def exConvT : ConvRow :=
  { thread_id := toText "t", prospect_email := toText "a", prospect_name := toText "A",
    subject := toText "s", status := toText "active", created_at := 0, updated_at := 0 }

/-- A conversation row for thread `u`. -/
def exConvU : ConvRow :=
  { thread_id := toText "u", prospect_email := toText "c", prospect_name := toText "C",
    subject := toText "s2", status := toText "active", created_at := 2, updated_at := 3 }

/-- A database with two threads and three messages; the two messages of
thread `t` share a timestamp. -/
def exDB : DB := { conversations := [exConvT, exConvU], messages := [exMsg1, exMsg2, exMsg3] }

/-- Second message of thread `t` with a strictly later timestamp. -/
def exMsg2s : MsgRow :=
  { thread_id := toText "t", direction := toText "outbound", sender := toText "b",
    recipient := toText "a", subject := toText "s", body := toText "m2", created_at := 2 }

/-- A database whose thread `t` has strictly increasing timestamps. -/
def exDBStrict : DB :=
  { conversations := [exConvT, exConvU], messages := [exMsg1, exMsg2s, exMsg3] }

/-- An `ORDER BY created_at ASC` engine that resolves equal-`created_at`
ties in reverse table order — a behaviour SQLite permits, since the
relative order of equal sort keys is unspecified. -/
def exTieReversingEngine : List MsgRow → List MsgRow :=
  fun l => orderByCreatedAtAsc l.reverse

/-- A conversation row whose thread id is the one `get_or_create_conversation`
computes for sender `a@b.c` and subject `hi`, so the lookup finds it. -/
def exConvC6 : ConvRow :=
  { thread_id := generate_thread_id (toText "a@b.c") (toText "hi"),
    prospect_email := toText "a@b.c", prospect_name := toText "A",
    subject := toText "hi", status := toText "active", created_at := 0, updated_at := 0 }

/-- A database holding only that conversation row. -/
def exDBC6 : DB := { conversations := [exConvC6], messages := [] }

/-- An email body whose very first line is both quoted and a reply
marker, followed by fresh content. -/
def exBodyC9 : Text := toText "> On Mon wrote:\nkept"

/-- A body with fresh content, a quoted line, then a non-quoted reply
marker followed by old content. -/
def exBody2 : Text := toText "hello\n> quoted\nOn Mon, Jan 1 wrote:\nold"

end Examples

/-! ## Supporting lemmas -/

section SupportingLemmas

open SDR DeepResearch

/-- `perform_searches` folds to: successes in completion order, and a
completion count equal to the number of launched tasks. -/
theorem perform_searches_eq (runner : Text → Except Text Text)
    (order : List WebSearchItem) :
    perform_searches runner order = (order.filterMap (search runner), order.length) := by
  have key : ∀ (l : List WebSearchItem) (acc : List Text × Nat),
      l.foldl
        (fun acc item =>
          match search runner item with
          | some r => (acc.1 ++ [r], acc.2 + 1)
          | none => (acc.1, acc.2 + 1)) acc
      = (acc.1 ++ l.filterMap (search runner), acc.2 + l.length) := by
    intro l
    induction l with
    | nil => intro acc; simp
    | cons item rest ih =>
      intro acc
      cases h : search runner item with
      | some r => simp [h, ih, List.filterMap_cons]; omega
      | none => simp [h, ih, List.filterMap_cons]; omega
  unfold perform_searches
  simpa using key order ([], 0)

/-- `zip` truncates both lists to the shorter length. -/
theorem zip_eq_zip_take_min {α β : Type} (l1 : List α) (l2 : List β) :
    l1.zip l2 =
      (l1.take (min l1.length l2.length)).zip (l2.take (min l1.length l2.length)) := by
  induction l1 generalizing l2 with
  | nil => simp
  | cons a t ih =>
    cases l2 with
    | nil => simp
    | cons b t2 =>
      simp only [List.zip_cons_cons, List.length_cons, Nat.succ_min_succ,
        List.take_succ_cons]
      exact congrArg (fun l => (a, b) :: l) (ih t2)

/-- Ascending insertion produces a permutation. -/
theorem insertByCreatedAt_perm (m : MsgRow) (l : List MsgRow) :
    (insertByCreatedAt m l).Perm (m :: l) := by
  induction l with
  | nil => exact List.Perm.refl _
  | cons x xs ih =>
    unfold insertByCreatedAt
    by_cases h : x.created_at < m.created_at
    · simp only [if_pos h]
      exact (ih.cons x).trans (List.Perm.swap m x xs)
    · simp [if_neg h]

/-- The concrete ascending engine permutes the rows. -/
theorem orderByCreatedAtAsc_perm (l : List MsgRow) :
    (orderByCreatedAtAsc l).Perm l := by
  induction l with
  | nil => exact List.Perm.refl _
  | cons x xs ih =>
    unfold orderByCreatedAtAsc at ih ⊢
    simp only [List.foldr_cons]
    exact (insertByCreatedAt_perm x _).trans (ih.cons x)

/-- Ascending insertion preserves sortedness. -/
theorem insertByCreatedAt_sorted (m : MsgRow) (l : List MsgRow)
    (h : l.Pairwise (fun a b => a.created_at ≤ b.created_at)) :
    (insertByCreatedAt m l).Pairwise (fun a b => a.created_at ≤ b.created_at) := by
  induction l with
  | nil => simp [insertByCreatedAt]
  | cons x xs ih =>
    rcases List.pairwise_cons.mp h with ⟨hx, hxs⟩
    unfold insertByCreatedAt
    by_cases hlt : x.created_at < m.created_at
    · rw [if_pos hlt]
      refine List.pairwise_cons.mpr ⟨?_, ih hxs⟩
      intro b hb
      rcases List.mem_cons.mp ((insertByCreatedAt_perm m xs).mem_iff.mp hb) with rfl | hb'
      · exact Nat.le_of_lt hlt
      · exact hx b hb'
    · rw [if_neg hlt]
      have hmx : m.created_at ≤ x.created_at := Nat.le_of_not_lt hlt
      refine List.pairwise_cons.mpr ⟨?_, h⟩
      intro b hb
      rcases List.mem_cons.mp hb with rfl | hb'
      · exact hmx
      · exact Nat.le_trans hmx (hx b hb')

/-- The concrete ascending engine sorts by `created_at`. -/
theorem orderByCreatedAtAsc_sorted (l : List MsgRow) :
    (orderByCreatedAtAsc l).Pairwise (fun a b => a.created_at ≤ b.created_at) := by
  induction l with
  | nil => simp [orderByCreatedAtAsc]
  | cons x xs ih =>
    unfold orderByCreatedAtAsc at ih ⊢
    simp only [List.foldr_cons]
    exact insertByCreatedAt_sorted x _ ih

/-- The concrete ascending engine is an admissible
`ORDER BY created_at ASC` behaviour. -/
theorem orderByCreatedAtAsc_valid : SortsByCreatedAt orderByCreatedAtAsc :=
  fun l => ⟨orderByCreatedAtAsc_perm l, orderByCreatedAtAsc_sorted l⟩

/-- The tie-reversing engine is also an admissible
`ORDER BY created_at ASC` behaviour. -/
theorem exTieReversingEngine_valid : SortsByCreatedAt Examples.exTieReversingEngine :=
  fun l => ⟨(orderByCreatedAtAsc_perm l.reverse).trans (List.reverse_perm l),
    orderByCreatedAtAsc_sorted l.reverse⟩

/-- Two permutations sorted by `created_at`, one strictly, coincide. -/
theorem sorted_perm_eq_of_strict :
    ∀ (l2 l1 : List MsgRow), l1.Perm l2 →
      l1.Pairwise (fun a b => a.created_at ≤ b.created_at) →
      l2.Pairwise (fun a b => a.created_at < b.created_at) →
      l1 = l2 := by
  intro l2
  induction l2 with
  | nil =>
    intro l1 hp _ _
    exact List.length_eq_zero.mp (by simpa using hp.length_eq)
  | cons x t ih =>
    intro l1 hp h1 h2
    cases l1 with
    | nil => exact absurd hp.length_eq (by simp)
    | cons y s =>
      rcases List.pairwise_cons.mp h1 with ⟨hy, hs⟩
      rcases List.pairwise_cons.mp h2 with ⟨hx, ht⟩
      by_cases hyx : y = x
      · subst hyx
        rw [ih s (hp.cons_inv) hs ht]
      · exfalso
        have hxin : x ∈ y :: s := hp.mem_iff.mpr (List.mem_cons_self x t)
        have hxs : x ∈ s := by
          rcases List.mem_cons.mp hxin with h | h
          · exact absurd h.symm hyx
          · exact h
        have hyin : y ∈ x :: t := hp.mem_iff.mp (List.mem_cons_self y s)
        have hyt : y ∈ t := by
          rcases List.mem_cons.mp hyin with h | h
          · exact absurd h hyx
          · exact h
        have hle : y.created_at ≤ x.created_at := hy x hxs
        have hlt : x.created_at < y.created_at := hx y hyt
        omega

/-- Descending insertion produces a permutation. -/
theorem insertByUpdatedAtDesc_perm (c : ConvRow) (l : List ConvRow) :
    (insertByUpdatedAtDesc c l).Perm (c :: l) := by
  induction l with
  | nil => exact List.Perm.refl _
  | cons x xs ih =>
    unfold insertByUpdatedAtDesc
    by_cases h : x.updated_at > c.updated_at
    · simp only [if_pos h]
      exact (ih.cons x).trans (List.Perm.swap c x xs)
    · simp [if_neg h]

/-- The concrete descending engine permutes the conversation rows. -/
theorem orderByUpdatedAtDesc_perm (l : List ConvRow) :
    (orderByUpdatedAtDesc l).Perm l := by
  induction l with
  | nil => exact List.Perm.refl _
  | cons x xs ih =>
    unfold orderByUpdatedAtDesc at ih ⊢
    simp only [List.foldr_cons]
    exact (insertByUpdatedAtDesc_perm x _).trans (ih.cons x)

/-- Descending insertion preserves descending sortedness. -/
theorem insertByUpdatedAtDesc_sorted (c : ConvRow) (l : List ConvRow)
    (h : l.Pairwise (fun a b => b.updated_at ≤ a.updated_at)) :
    (insertByUpdatedAtDesc c l).Pairwise (fun a b => b.updated_at ≤ a.updated_at) := by
  induction l with
  | nil => simp [insertByUpdatedAtDesc]
  | cons x xs ih =>
    rcases List.pairwise_cons.mp h with ⟨hx, hxs⟩
    unfold insertByUpdatedAtDesc
    by_cases hgt : x.updated_at > c.updated_at
    · rw [if_pos hgt]
      refine List.pairwise_cons.mpr ⟨?_, ih hxs⟩
      intro b hb
      rcases List.mem_cons.mp ((insertByUpdatedAtDesc_perm c xs).mem_iff.mp hb) with rfl | hb'
      · exact Nat.le_of_lt hgt
      · exact hx b hb'
    · rw [if_neg hgt]
      have hcx : x.updated_at ≤ c.updated_at := Nat.le_of_not_lt hgt
      refine List.pairwise_cons.mpr ⟨?_, h⟩
      intro b hb
      rcases List.mem_cons.mp hb with rfl | hb'
      · exact hcx
      · exact Nat.le_trans (hx b hb') hcx

/-- The concrete descending engine sorts by `updated_at` descending. -/
theorem orderByUpdatedAtDesc_sorted (l : List ConvRow) :
    (orderByUpdatedAtDesc l).Pairwise (fun a b => b.updated_at ≤ a.updated_at) := by
  induction l with
  | nil => simp [orderByUpdatedAtDesc]
  | cons x xs ih =>
    unfold orderByUpdatedAtDesc at ih ⊢
    simp only [List.foldr_cons]
    exact insertByUpdatedAtDesc_sorted x _ ih

/-- The concrete descending engine is an admissible
`ORDER BY c.updated_at DESC` behaviour. -/
theorem orderByUpdatedAtDesc_valid : SortsByUpdatedAtDesc orderByUpdatedAtDesc :=
  fun l => ⟨orderByUpdatedAtDesc_perm l, orderByUpdatedAtDesc_sorted l⟩

/-- `splitLines` never returns the empty list. -/
theorem splitLines_ne_nil (s : Text) : splitLines s ≠ [] := by
  cases s with
  | nil => simp [splitLines]
  | cons c rest =>
    unfold splitLines
    by_cases h : c = '\n'
    · simp [h]
    · simp only [h, if_false]
      cases splitLines rest <;> simp

/-- Joining the lines of a string restores the string. -/
theorem joinLines_splitLines (s : Text) : joinLines (splitLines s) = s := by
  induction s with
  | nil => rfl
  | cons c rest ih =>
    unfold splitLines
    by_cases h : c = '\n'
    · subst h
      simp only [if_pos rfl]
      cases hs : splitLines rest with
      | nil => exact absurd hs (splitLines_ne_nil rest)
      | cons l t =>
        rw [hs] at ih
        show joinLines ([] :: l :: t) = '\n' :: rest
        unfold joinLines
        rw [ih]
        rfl
    · simp only [h, if_false]
      cases hs : splitLines rest with
      | nil => exact absurd hs (splitLines_ne_nil rest)
      | cons l t =>
        rw [hs] at ih
        cases t with
        | nil =>
          show joinLines [c :: l] = c :: rest
          unfold joinLines at ih ⊢
          rw [← ih]
        | cons l2 t2 =>
          show joinLines ((c :: l) :: l2 :: t2) = c :: rest
          unfold joinLines at ih ⊢
          rw [← ih]
          rfl

/-- Lines produced by `splitLines` contain no newline. -/
theorem mem_splitLines_no_newline (s : Text) :
    ∀ l ∈ splitLines s, '\n' ∉ l := by
  induction s with
  | nil => intro l hl; simp [splitLines] at hl; simp [hl]
  | cons c rest ih =>
    intro l hl
    unfold splitLines at hl
    by_cases h : c = '\n'
    · simp only [h, if_pos rfl] at hl
      rcases List.mem_cons.mp hl with h1 | h1
      · simp [h1]
      · exact ih l h1
    · simp only [h, if_false] at hl
      cases hs : splitLines rest with
      | nil => exact absurd hs (splitLines_ne_nil rest)
      | cons l0 t =>
        rw [hs] at hl ih
        rcases List.mem_cons.mp hl with h1 | h1
        · subst h1
          intro hmem
          rcases List.mem_cons.mp hmem with h2 | h2
          · exact h h2.symm
          · exact ih l0 (List.mem_cons_self l0 t) h2
        · exact ih l (List.mem_cons.mpr (Or.inr h1))

/-- A newline-free string is a single line. -/
theorem splitLines_of_no_newline (l : Text) (h : '\n' ∉ l) :
    splitLines l = [l] := by
  induction l with
  | nil => rfl
  | cons c rest ih =>
    have hc : ¬ (c = '\n') := fun hh => h (hh ▸ List.mem_cons_self c rest)
    have hr : '\n' ∉ rest := fun hh => h (List.mem_cons.mpr (Or.inr hh))
    unfold splitLines
    simp only [hc, if_false]
    rw [ih hr]

/-- Splitting after a newline-free first line. -/
theorem splitLines_append_newline (l t : Text) (h : '\n' ∉ l) :
    splitLines (l ++ '\n' :: t) = l :: splitLines t := by
  induction l with
  | nil => simp [splitLines]
  | cons c rest ih =>
    have hc : ¬ (c = '\n') := fun hh => h (hh ▸ List.mem_cons_self c rest)
    have hr : '\n' ∉ rest := fun hh => h (List.mem_cons.mpr (Or.inr hh))
    show splitLines (c :: (rest ++ '\n' :: t)) = (c :: rest) :: splitLines t
    conv_lhs => unfold splitLines
    simp only [hc, if_false]
    rw [ih hr]

/-- Splitting the join of newline-free lines restores the lines. -/
theorem splitLines_joinLines (L : List Text) (hne : L ≠ [])
    (hnl : ∀ l ∈ L, '\n' ∉ l) : splitLines (joinLines L) = L := by
  induction L with
  | nil => exact absurd rfl hne
  | cons l t ih =>
    cases t with
    | nil =>
      show splitLines (joinLines [l]) = [l]
      unfold joinLines
      exact splitLines_of_no_newline l (hnl l (List.mem_cons_self l []))
    | cons l2 t2 =>
      show splitLines (l ++ '\n' :: joinLines (l2 :: t2)) = l :: l2 :: t2
      rw [splitLines_append_newline l _ (hnl l (List.mem_cons_self l _))]
      rw [ih (by simp) (fun x hx => hnl x (List.mem_cons.mpr (Or.inr hx)))]

/-- Dropping a satisfying prefix block. -/
theorem dropWhile_append_of_all {p : Char → Bool} {u : Text} (x : Text)
    (h : ∀ c ∈ u, p c = true) : (u ++ x).dropWhile p = x.dropWhile p := by
  induction u with
  | nil => rfl
  | cons c rest ih =>
    have hc : p c = true := h c (List.mem_cons_self c rest)
    show ((c :: (rest ++ x)).dropWhile p) = x.dropWhile p
    rw [List.dropWhile_cons_of_pos hc]
    exact ih (fun d hd => h d (List.mem_cons.mpr (Or.inr hd)))

/-- When the head survives `dropWhile`, a suffix passes through. -/
theorem dropWhile_append_of_ne {p : Char → Bool} {x : Text} (v : Text)
    (h : x.dropWhile p ≠ []) : (x ++ v).dropWhile p = x.dropWhile p ++ v := by
  induction x with
  | nil => exact absurd rfl h
  | cons c rest ih =>
    by_cases hc : p c = true
    · rw [List.dropWhile_cons_of_pos hc] at h
      show ((c :: (rest ++ v)).dropWhile p) = _
      rw [List.dropWhile_cons_of_pos hc, List.dropWhile_cons_of_pos hc, ih h]
    · have hc' : p c = false := by simpa using hc
      show ((c :: (rest ++ v)).dropWhile p) = (c :: rest).dropWhile p ++ v
      rw [List.dropWhile_cons_of_neg (by simp [hc']),
        List.dropWhile_cons_of_neg (by simp [hc'])]
      rfl

/-- Stripping ignores a whitespace prefix. -/
theorem pyStrip_ws_append {u : Text} (x : Text)
    (h : ∀ c ∈ u, pyIsSpace c = true) : pyStrip (u ++ x) = pyStrip x := by
  unfold pyStrip pyStripOn lstripOn
  rw [dropWhile_append_of_all x h]

/-- Right-stripping ignores a whitespace suffix. -/
theorem rstripOn_append_ws {p : Char → Bool} {v : Text} (x : Text)
    (h : ∀ c ∈ v, p c = true) : rstripOn p (x ++ v) = rstripOn p x := by
  unfold rstripOn
  rw [List.reverse_append,
    dropWhile_append_of_all x.reverse (fun c hc => h c (List.mem_reverse.mp hc))]

/-- Stripping ignores a whitespace suffix. -/
theorem pyStrip_append_ws {v : Text} (x : Text)
    (h : ∀ c ∈ v, pyIsSpace c = true) : pyStrip (x ++ v) = pyStrip x := by
  unfold pyStrip pyStripOn lstripOn
  by_cases hx : x.dropWhile pyIsSpace = []
  · have hxall : ∀ c ∈ x, pyIsSpace c = true := List.dropWhile_eq_nil_iff.mp hx
    rw [dropWhile_append_of_all (u := x) v hxall, hx]
    have hv : v.dropWhile pyIsSpace = [] := List.dropWhile_eq_nil_iff.mpr h
    rw [hv]
  · rw [dropWhile_append_of_ne v hx]
    exact rstripOn_append_ws _ h

/-- Strip decomposition: a string is whitespace, its strip, whitespace. -/
theorem pyStrip_decomp (s : Text) :
    ∃ w1 w2, s = w1 ++ pyStrip s ++ w2 ∧
      (∀ c ∈ w1, pyIsSpace c = true) ∧ (∀ c ∈ w2, pyIsSpace c = true) := by
  refine ⟨s.takeWhile pyIsSpace,
    ((s.dropWhile pyIsSpace).reverse.takeWhile pyIsSpace).reverse, ?_, ?_, ?_⟩
  · conv_lhs => rw [← List.takeWhile_append_dropWhile (p := pyIsSpace) (l := s)]
    rw [List.append_assoc]
    congr 1
    unfold pyStrip pyStripOn rstripOn lstripOn
    conv_lhs => rw [← List.reverse_reverse (s.dropWhile pyIsSpace)]
    rw [← List.reverse_append,
      List.takeWhile_append_dropWhile (p := pyIsSpace)]
  · exact fun c hc => List.mem_takeWhile_imp hc
  · exact fun c hc => List.mem_takeWhile_imp (List.mem_reverse.mp hc)

/-- Stripping is idempotent. -/
theorem pyStrip_idem (s : Text) : pyStrip (pyStrip s) = pyStrip s := by
  rcases pyStrip_decomp s with ⟨w1, w2, hdec, h1, h2⟩
  conv_rhs => rw [hdec]
  rw [List.append_assoc, pyStrip_ws_append _ h1, pyStrip_append_ws _ h2]

/-- Python `in` is substring containment. -/
theorem containsSub_iff (pat s : Text) :
    containsSub pat s = true ↔ ∃ x y, s = x ++ pat ++ y := by
  induction s with
  | nil =>
    simp only [containsSub, List.isEmpty_iff]
    constructor
    · intro h
      exact ⟨[], [], by simp [h]⟩
    · rintro ⟨x, y, hxy⟩
      exact (List.append_eq_nil.mp (List.append_eq_nil.mp hxy.symm).1).2
  | cons c rest ih =>
    simp only [containsSub, Bool.or_eq_true, List.isPrefixOf_iff_prefix, ih]
    constructor
    · rintro (⟨y, hy⟩ | ⟨x, y, hxy⟩)
      · exact ⟨[], y, by simp [hy]⟩
      · exact ⟨c :: x, y, by simp [hxy]⟩
    · rintro ⟨x, y, hxy⟩
      cases x with
      | nil =>
        left
        exact ⟨y, by simpa using hxy.symm⟩
      | cons c0 x' =>
        right
        refine ⟨x', y, ?_⟩
        have := hxy
        simp only [List.cons_append, List.cons.injEq] at this
        exact this.2

/-- Substring containment is monotone under embedding the line into a
larger line. -/
theorem containsSub_mono {pat l : Text} (u v : Text)
    (h : containsSub pat l = true) : containsSub pat (u ++ l ++ v) = true := by
  rcases (containsSub_iff pat l).mp h with ⟨x, y, hxy⟩
  refine (containsSub_iff pat _).mpr ⟨u ++ x, y ++ v, ?_⟩
  subst hxy
  simp

/-- `splitLines` equation for a leading newline. -/
theorem splitLines_cons_newline (t : Text) :
    splitLines ('\n' :: t) = [] :: splitLines t := by
  conv_lhs => unfold splitLines
  simp

/-- `splitLines` equation for a leading non-newline character. -/
theorem splitLines_cons_ne (c : Char) (t : Text) (h : ¬ c = '\n')
    {l0 : Text} {tl : List Text} (ht : splitLines t = l0 :: tl) :
    splitLines (c :: t) = (c :: l0) :: tl := by
  conv_lhs => unfold splitLines
  simp only [h, if_false, ht]

/-- Appending a newline adds an empty last line. -/
theorem splitLines_concat_newline (t : Text) :
    splitLines (t ++ ['\n']) = splitLines t ++ [[]] := by
  induction t with
  | nil => rfl
  | cons c rest ih =>
    by_cases hc : c = '\n'
    · subst hc
      rw [List.cons_append, splitLines_cons_newline, splitLines_cons_newline, ih]
      rfl
    · cases hs : splitLines rest with
      | nil => exact absurd hs (splitLines_ne_nil rest)
      | cons l0 tl =>
        rw [hs] at ih
        rw [List.cons_append,
          splitLines_cons_ne c _ hc (by rw [ih]; rfl),
          splitLines_cons_ne c _ hc hs]
        rfl

/-- Appending a non-newline character extends the last line. -/
theorem splitLines_concat_ne (c : Char) (t : Text) (hc : ¬ c = '\n') :
    splitLines (t ++ [c]) = appendToLast c (splitLines t) := by
  induction t with
  | nil =>
    show splitLines [c] = appendToLast c [[]]
    conv_lhs => unfold splitLines
    simp only [hc, if_false]
    rfl
  | cons d rest ih =>
    by_cases hd : d = '\n'
    · subst hd
      rw [List.cons_append, splitLines_cons_newline, splitLines_cons_newline, ih]
      cases hs : splitLines rest with
      | nil => exact absurd hs (splitLines_ne_nil rest)
      | cons l0 tl => rfl
    · cases hs : splitLines rest with
      | nil => exact absurd hs (splitLines_ne_nil rest)
      | cons l0 tl =>
        rw [hs] at ih
        cases tl with
        | nil =>
          rw [List.cons_append,
            splitLines_cons_ne d _ hd (by rw [ih]; rfl),
            splitLines_cons_ne d _ hd hs]
          rfl
        | cons t1 t2 =>
          rw [List.cons_append,
            splitLines_cons_ne d _ hd (by rw [ih]; rfl),
            splitLines_cons_ne d _ hd hs]
          rfl

/-- Every line is present, possibly extended by `c`, after `appendToLast`. -/
theorem mem_appendToLast (c : Char) :
    ∀ (L : List Text), L ≠ [] → ∀ l ∈ L,
      ∃ lp ∈ appendToLast c L, lp = l ∨ lp = l ++ [c] := by
  intro L
  induction L with
  | nil => intro h; exact absurd rfl h
  | cons l0 t ih =>
    intro _ l hl
    cases t with
    | nil =>
      rcases List.mem_cons.mp hl with h1 | h1
      · subst h1
        exact ⟨l ++ [c], List.mem_cons_self _ _, Or.inr rfl⟩
      · simp at h1
    | cons l1 t2 =>
      rcases List.mem_cons.mp hl with h1 | h1
      · subst h1
        exact ⟨l, List.mem_cons_self _ _, Or.inl rfl⟩
      · rcases ih (by simp) l h1 with ⟨lp, hlp, hor⟩
        exact ⟨lp, List.mem_cons.mpr (Or.inr hlp), hor⟩

/-- Lines of `t` embed into lines of `w ++ t` for whitespace `w`, framed
by whitespace. -/
theorem mem_splitLines_ws_prefix (w t : Text) :
    (∀ c ∈ w, pyIsSpace c = true) →
    ∀ l ∈ splitLines t, ∃ lp ∈ splitLines (w ++ t), ∃ u v,
      lp = u ++ l ++ v ∧ (∀ c ∈ u, pyIsSpace c = true) ∧
      (∀ c ∈ v, pyIsSpace c = true) := by
  induction w with
  | nil =>
    intro _ l hl
    exact ⟨l, by simpa using hl, [], [], by simp, by simp, by simp⟩
  | cons c w' ih =>
    intro hw l hl
    have hc : pyIsSpace c = true := hw c (List.mem_cons_self c w')
    have hw' : ∀ d ∈ w', pyIsSpace d = true :=
      fun d hd => hw d (List.mem_cons.mpr (Or.inr hd))
    rcases ih hw' l hl with ⟨lp, hlp, u, v, hdec, hu, hv⟩
    by_cases hcn : c = '\n'
    · subst hcn
      refine ⟨lp, ?_, u, v, hdec, hu, hv⟩
      rw [List.cons_append, splitLines_cons_newline]
      exact List.mem_cons.mpr (Or.inr hlp)
    · cases hs : splitLines (w' ++ t) with
      | nil => exact absurd hs (splitLines_ne_nil _)
      | cons l0 tl =>
        rw [hs] at hlp
        rcases List.mem_cons.mp hlp with h1 | h1
        · subst h1
          refine ⟨c :: lp, ?_, c :: u, v, ?_, ?_, hv⟩
          · rw [List.cons_append, splitLines_cons_ne c _ hcn hs]
            exact List.mem_cons_self _ _
          · rw [hdec]
            rfl
          · intro d hd
            rcases List.mem_cons.mp hd with h2 | h2
            · exact h2 ▸ hc
            · exact hu d h2
        · refine ⟨lp, ?_, u, v, hdec, hu, hv⟩
          rw [List.cons_append, splitLines_cons_ne c _ hcn hs]
          exact List.mem_cons.mpr (Or.inr h1)

/-- Lines of `t` embed into lines of `t ++ w` for whitespace `w`, framed
by whitespace. -/
theorem mem_splitLines_ws_suffix (w : Text) :
    ∀ (t : Text), (∀ c ∈ w, pyIsSpace c = true) →
    ∀ l ∈ splitLines t, ∃ lp ∈ splitLines (t ++ w), ∃ u v,
      lp = u ++ l ++ v ∧ (∀ c ∈ u, pyIsSpace c = true) ∧
      (∀ c ∈ v, pyIsSpace c = true) := by
  induction w with
  | nil =>
    intro t _ l hl
    exact ⟨l, by simpa using hl, [], [], by simp, by simp, by simp⟩
  | cons c w' ih =>
    intro t hw l hl
    have hc : pyIsSpace c = true := hw c (List.mem_cons_self c w')
    have hw' : ∀ d ∈ w', pyIsSpace d = true :=
      fun d hd => hw d (List.mem_cons.mpr (Or.inr hd))
    have step : ∃ l1 ∈ splitLines (t ++ [c]), l1 = l ∨ l1 = l ++ [c] := by
      by_cases hcn : c = '\n'
      · subst hcn
        rw [splitLines_concat_newline]
        exact ⟨l, List.mem_append_left _ hl, Or.inl rfl⟩
      · rw [splitLines_concat_ne c t hcn]
        exact mem_appendToLast c _ (splitLines_ne_nil t) l hl
    rcases step with ⟨l1, hl1, hor⟩
    rcases ih (t ++ [c]) hw' l1 hl1 with ⟨lp, hlp, u, v, hdec, hu, hv⟩
    rw [List.append_assoc, List.singleton_append] at hlp
    cases hor with
    | inl h1 =>
      subst h1
      exact ⟨lp, hlp, u, v, hdec, hu, hv⟩
    | inr h1 =>
      subst h1
      refine ⟨lp, hlp, u, c :: v, ?_, hu, ?_⟩
      · rw [hdec]
        simp
      · intro d hd
        rcases List.mem_cons.mp hd with h2 | h2
        · exact h2 ▸ hc
        · exact hv d h2

/-- Stripping is blind to whitespace framing. -/
theorem pyStrip_of_decomp {lp l u v : Text} (hdec : lp = u ++ l ++ v)
    (hu : ∀ c ∈ u, pyIsSpace c = true) (hv : ∀ c ∈ v, pyIsSpace c = true) :
    pyStrip lp = pyStrip l := by
  subst hdec
  rw [pyStrip_append_ws (u ++ l) hv, pyStrip_ws_append l hu]

/-- The `On ... wrote:` test is monotone under whitespace framing. -/
theorem isOnWrote_mono (u v : Text) {l : Text} (h : isOnWroteLine l = true) :
    isOnWroteLine (u ++ l ++ v) = true := by
  unfold isOnWroteLine at h ⊢
  rw [Bool.and_eq_true] at h
  rcases h with ⟨h1, h2⟩
  rw [containsSub_mono u v h1, containsSub_mono u v h2]
  rfl

/-- The `From: ... @` test is monotone under whitespace framing. -/
theorem isFromAt_mono (u v : Text) {l : Text}
    (hu : ∀ c ∈ u, pyIsSpace c = true) (hv : ∀ c ∈ v, pyIsSpace c = true)
    (h : isFromAtLine l = true) : isFromAtLine (u ++ l ++ v) = true := by
  unfold isFromAtLine at h ⊢
  rw [Bool.and_eq_true] at h
  rcases h with ⟨h1, h2⟩
  rw [pyStrip_of_decomp rfl hu hv, h1, containsSub_mono u v h2]
  rfl

/-- The divider test is monotone under whitespace framing. -/
theorem isDivider_mono (u v : Text) {l : Text} (h : isDividerLine l = true) :
    isDividerLine (u ++ l ++ v) = true := by
  unfold isDividerLine at h ⊢
  exact containsSub_mono u v h

/-- All `clean_email_body` skip/stop conditions are false on a line
whenever they are false on its whitespace-framed extension. -/
theorem conds_of_decomp {lp l u v : Text} (hdec : lp = u ++ l ++ v)
    (hu : ∀ c ∈ u, pyIsSpace c = true) (hv : ∀ c ∈ v, pyIsSpace c = true)
    (h : startsGtLine lp = false ∧ isOnWroteLine lp = false ∧
      isFromAtLine lp = false ∧ isDividerLine lp = false ∧
      isSigDelimLine lp = false) :
    startsGtLine l = false ∧ isOnWroteLine l = false ∧ isFromAtLine l = false ∧
      isDividerLine l = false ∧ isSigDelimLine l = false := by
  have hstrip : pyStrip lp = pyStrip l := pyStrip_of_decomp hdec hu hv
  subst hdec
  refine ⟨?_, ?_, ?_, ?_, ?_⟩
  · have h1 := h.1
    unfold startsGtLine at h1 ⊢
    rw [← hstrip]
    exact h1
  · cases hb : isOnWroteLine l with
    | false => rfl
    | true =>
      have hmono := isOnWrote_mono u v hb
      rw [h.2.1] at hmono
      exact absurd hmono (by decide)
  · cases hb : isFromAtLine l with
    | false => rfl
    | true =>
      have hmono := isFromAt_mono u v hu hv hb
      rw [h.2.2.1] at hmono
      exact absurd hmono (by decide)
  · cases hb : isDividerLine l with
    | false => rfl
    | true =>
      have hmono := isDivider_mono u v hb
      rw [h.2.2.2.1] at hmono
      exact absurd hmono (by decide)
  · have h5 := h.2.2.2.2
    unfold isSigDelimLine at h5 ⊢
    rw [← hstrip]
    exact h5

/-- Every line kept by the `clean_email_body` loop fails all skip/stop
conditions. -/
theorem keepLines_conds_false :
    ∀ (L : List Text), ∀ l ∈ keepLines L,
      startsGtLine l = false ∧ isOnWroteLine l = false ∧ isFromAtLine l = false ∧
        isDividerLine l = false ∧ isSigDelimLine l = false := by
  intro L
  induction L with
  | nil => intro l hl; simp [keepLines] at hl
  | cons x t ih =>
    intro l hl
    unfold keepLines at hl
    by_cases hgt : startsGtLine x = true
    · rw [if_pos hgt] at hl
      exact ih l hl
    · rw [if_neg hgt] at hl
      by_cases h1 : isOnWroteLine x = true
      · rw [if_pos h1] at hl; simp at hl
      · rw [if_neg h1] at hl
        by_cases h2 : isFromAtLine x = true
        · rw [if_pos h2] at hl; simp at hl
        · rw [if_neg h2] at hl
          by_cases h3 : isDividerLine x = true
          · rw [if_pos h3] at hl; simp at hl
          · rw [if_neg h3] at hl
            by_cases h4 : isSigDelimLine x = true
            · rw [if_pos h4] at hl; simp at hl
            · rw [if_neg h4] at hl
              rcases List.mem_cons.mp hl with h5 | h5
              · subst h5
                exact ⟨by simpa using hgt, by simpa using h1, by simpa using h2,
                  by simpa using h3, by simpa using h4⟩
              · exact ih l h5

/-- The loop keeps a line list unchanged when no condition fires. -/
theorem keepLines_eq_self (L : List Text)
    (h : ∀ l ∈ L, startsGtLine l = false ∧ isOnWroteLine l = false ∧
      isFromAtLine l = false ∧ isDividerLine l = false ∧ isSigDelimLine l = false) :
    keepLines L = L := by
  induction L with
  | nil => rfl
  | cons x t ih =>
    have hx := h x (List.mem_cons_self x t)
    unfold keepLines
    rw [if_neg (by simp [hx.1]), if_neg (by simp [hx.2.1]),
      if_neg (by simp [hx.2.2.1]), if_neg (by simp [hx.2.2.2.1]),
      if_neg (by simp [hx.2.2.2.2]),
      ih (fun l hl => h l (List.mem_cons.mpr (Or.inr hl)))]

/-- Kept lines are among the input lines. -/
theorem keepLines_subset : ∀ (L : List Text), ∀ l ∈ keepLines L, l ∈ L := by
  intro L
  induction L with
  | nil => intro l hl; simpa [keepLines] using hl
  | cons x t ih =>
    intro l hl
    unfold keepLines at hl
    by_cases hgt : startsGtLine x = true
    · rw [if_pos hgt] at hl
      exact List.mem_cons.mpr (Or.inr (ih l hl))
    · rw [if_neg hgt] at hl
      by_cases h1 : isOnWroteLine x = true
      · rw [if_pos h1] at hl; simp at hl
      · rw [if_neg h1] at hl
        by_cases h2 : isFromAtLine x = true
        · rw [if_pos h2] at hl; simp at hl
        · rw [if_neg h2] at hl
          by_cases h3 : isDividerLine x = true
          · rw [if_pos h3] at hl; simp at hl
          · rw [if_neg h3] at hl
            by_cases h4 : isSigDelimLine x = true
            · rw [if_pos h4] at hl; simp at hl
            · rw [if_neg h4] at hl
              rcases List.mem_cons.mp hl with h5 | h5
              · exact h5 ▸ List.mem_cons_self x t
              · exact List.mem_cons.mpr (Or.inr (ih l h5))

/-- Kept lines come before the first non-quoted marker line. -/
theorem keepLines_mem_takeWhile :
    ∀ (L : List Text), ∀ l ∈ keepLines L,
      l ∈ L.takeWhile (fun x => !(!startsGtLine x && isMarkerLine x)) := by
  intro L
  induction L with
  | nil => intro l hl; simpa [keepLines] using hl
  | cons x t ih =>
    intro l hl
    unfold keepLines at hl
    by_cases hgt : startsGtLine x = true
    · rw [if_pos hgt] at hl
      rw [List.takeWhile_cons_of_pos (by simp [hgt])]
      exact List.mem_cons.mpr (Or.inr (ih l hl))
    · rw [if_neg hgt] at hl
      by_cases h1 : isOnWroteLine x = true
      · rw [if_pos h1] at hl; simp at hl
      · rw [if_neg h1] at hl
        by_cases h2 : isFromAtLine x = true
        · rw [if_pos h2] at hl; simp at hl
        · rw [if_neg h2] at hl
          by_cases h3 : isDividerLine x = true
          · rw [if_pos h3] at hl; simp at hl
          · rw [if_neg h3] at hl
            by_cases h4 : isSigDelimLine x = true
            · rw [if_pos h4] at hl; simp at hl
            · rw [if_neg h4] at hl
              have hmark : isMarkerLine x = false := by
                unfold isMarkerLine
                simp only [Bool.or_eq_false_iff]
                exact ⟨⟨⟨by simpa using h1, by simpa using h2⟩, by simpa using h3⟩,
                  by simpa using h4⟩
              rw [List.takeWhile_cons_of_pos (by simp [hmark])]
              rcases List.mem_cons.mp hl with h5 | h5
              · exact h5 ▸ List.mem_cons_self x _
              · exact List.mem_cons.mpr (Or.inr (ih l h5))

/-- The prefix before the first non-quoted marker is a `take`. -/
theorem takeWhile_eq_take_of_firstUnquoted :
    ∀ (L : List Text) (k : Nat), firstUnquotedMarkerIdx L = some k →
      L.takeWhile (fun x => !(!startsGtLine x && isMarkerLine x)) = L.take k := by
  intro L
  induction L with
  | nil => intro k h; simp [firstUnquotedMarkerIdx, findLineIdx] at h
  | cons x t ih =>
    intro k h
    unfold firstUnquotedMarkerIdx findLineIdx at h
    by_cases hq : (!startsGtLine x && isMarkerLine x) = true
    · rw [if_pos hq] at h
      obtain rfl : (0 : Nat) = k := by simpa using h
      rw [List.takeWhile_cons_of_neg (by simp [hq])]
      rfl
    · rw [if_neg hq] at h
      cases ho : findLineIdx (fun l => !startsGtLine l && isMarkerLine l) t with
      | none => rw [ho] at h; simp at h
      | some k0 =>
        rw [ho] at h
        obtain rfl : k0 + 1 = k := by simpa using h
        have hq' : (!startsGtLine x && isMarkerLine x) = false := by simpa using hq
        rw [List.takeWhile_cons_of_pos (by simp [hq']), List.take_succ_cons,
          ih k0 ho]

/-- Unfolding equation for `clean_email_body`. -/
theorem clean_email_body_def (b : Text) :
    clean_email_body b = pyStrip (joinLines (keepLines (splitLines b))) := rfl

/-- Every line of the cleaned body is empty or a whitespace-framed piece
of a kept line. -/
theorem mem_clean_lines (body : Text) :
    ∀ l ∈ splitLines (clean_email_body body),
      l = [] ∨ ∃ lp ∈ keepLines (splitLines body), pyStrip l = pyStrip lp ∧
        ∃ u v, lp = u ++ l ++ v ∧ (∀ c ∈ u, pyIsSpace c = true) ∧
          (∀ c ∈ v, pyIsSpace c = true) := by
  intro l hl
  unfold clean_email_body at hl
  by_cases hK : keepLines (splitLines body) = []
  · rw [hK] at hl
    left
    simpa [joinLines, pyStrip, pyStripOn, lstripOn, rstripOn, splitLines] using hl
  · right
    have hKnl : ∀ x ∈ keepLines (splitLines body), '\n' ∉ x := fun x hx =>
      mem_splitLines_no_newline body x (keepLines_subset _ x hx)
    have hsplitK : splitLines (joinLines (keepLines (splitLines body))) =
        keepLines (splitLines body) := splitLines_joinLines _ hK hKnl
    rcases pyStrip_decomp (joinLines (keepLines (splitLines body))) with
      ⟨w1, w2, hdec, h1, h2⟩
    rcases mem_splitLines_ws_suffix w2 _ h2 l hl with ⟨l1, hl1, u1, v1, hdec1, hu1, hv1⟩
    rcases mem_splitLines_ws_prefix w1 _ h1 l1 hl1 with ⟨lp, hlp, u2, v2, hdec2, hu2, hv2⟩
    rw [← List.append_assoc, ← hdec, hsplitK] at hlp
    refine ⟨lp, hlp, ?_, u2 ++ u1, v1 ++ v2, ?_, ?_, ?_⟩
    · have e1 : pyStrip l1 = pyStrip l := pyStrip_of_decomp hdec1 hu1 hv1
      have e2 : pyStrip lp = pyStrip l1 := pyStrip_of_decomp hdec2 hu2 hv2
      rw [e2, e1]
    · rw [hdec2, hdec1]
      simp
    · intro d hd
      rcases List.mem_append.mp hd with h3 | h3
      · exact hu2 d h3
      · exact hu1 d h3
    · intro d hd
      rcases List.mem_append.mp hd with h3 | h3
      · exact hv1 d h3
      · exact hv2 d h3

/-- Whenever the webhook `try` block completes, the response it built has
code 200 and JSON status `processed`. -/
theorem processEmail_ok_shape (engine : List MsgRow → List MsgRow)
    (gen : List MsgRow → Text → Except Text Text)
    (send : Text → Text → Text → SendResult) (now : Nat) (form : EmailForm)
    (db : DB) (r : HttpResponse × DB)
    (h : processEmail engine gen send now form db = Except.ok r) :
    r.1.code = 200 ∧
    r.1.body.lookup (toText "status") = some (Json.str (toText "processed")) := by
  unfold processEmail at h
  dsimp only [] at h
  split at h <;> split at h <;>
    first
    | exact Except.noConfusion h
    | (rw [Except.ok.injEq] at h
       subst h
       exact ⟨rfl, rfl⟩)

end SupportingLemmas

/-! ## Claims -/

open SDR DeepResearch Examples

/-- Claim C2: for every search plan of K items, `perform_searches` awaits
all K launched searches (the completion counter reaches K for any
completion order the scheduler chooses); an exception inside a single
search is caught by `search` and turned into `None`; and the returned
list contains exactly the results of the searches that succeeded, failed
searches excluded, so its length is at most K. -/
theorem c2_perform_searches_swallows_failures
    (runner : Text → Except Text Text) (plan : WebSearchPlan)
    (order : List WebSearchItem) (horder : order.Perm plan.searches) :
    (perform_searches runner order).2 = plan.searches.length ∧
    (perform_searches runner order).1.Perm
      (plan.searches.filterMap (search runner)) ∧
    (perform_searches runner order).1.length ≤ plan.searches.length ∧
    (∀ r ∈ (perform_searches runner order).1,
      ∃ item ∈ plan.searches, search runner item = some r) ∧
    (∀ item e, runner (searchInput item) = Except.error e →
      search runner item = none) := by
  rw [perform_searches_eq]
  refine ⟨horder.length_eq, horder.filterMap (search runner), ?_, ?_, ?_⟩
  · calc (order.filterMap (search runner)).length
        ≤ order.length := List.length_filterMap_le _ _
      _ = plan.searches.length := horder.length_eq
  · intro r hr
    rcases List.mem_filterMap.mp hr with ⟨item, hitem, hsome⟩
    exact ⟨item, horder.subset hitem, hsome⟩
  · intro item e he
    simp [search, he]

/-- Witness for C2 at a concrete two-item plan whose second search raises,
with the scheduler completing the searches in reverse order. -/
theorem c2_witness :
    ([exItem2, exItem1].Perm exPlan.searches) ∧
    ((perform_searches exSearchRunner [exItem2, exItem1]).2 = exPlan.searches.length ∧
     (perform_searches exSearchRunner [exItem2, exItem1]).1.Perm
       (exPlan.searches.filterMap (search exSearchRunner)) ∧
     (perform_searches exSearchRunner [exItem2, exItem1]).1.length ≤ exPlan.searches.length ∧
     (∀ r ∈ (perform_searches exSearchRunner [exItem2, exItem1]).1,
       ∃ item ∈ exPlan.searches, search exSearchRunner item = some r) ∧
     (∀ item e, exSearchRunner (searchInput item) = Except.error e →
       search exSearchRunner item = none)) :=
  ⟨by decide,
   c2_perform_searches_swallows_failures exSearchRunner exPlan [exItem2, exItem1] (by decide)⟩

/-- Claim C4: every invocation of `ResearchManager.run` executes the
stages in the strict order plan, search, write, email; a status string is
yielded between consecutive stages; and the final yielded value is the
report's markdown text. -/
theorem c4_run_pipeline_order (O : RunOracles) (query : Text)
    (questions answers : List Text) :
    (runPipeline O query questions answers).filterMap RunEvent.tagOf =
      [StageTag.plan, StageTag.searchWeb, StageTag.write, StageTag.email] ∧
    (∃ plan results report,
      plan = (plan_searches O.planner query questions answers).1 ∧
      results = (perform_searches O.searchRunner (O.searchOrder plan.searches)).1 ∧
      report = O.writer (writeInput query results) ∧
      runPipeline O query questions answers =
        [RunEvent.yielded
           (toText "View trace: https://platform.openai.com/traces/trace?trace_id="
             ++ O.traceId),
         RunEvent.stagePlan plan,
         RunEvent.yielded (toText "Searches planned, starting to search..."),
         RunEvent.stageSearch results,
         RunEvent.yielded (toText "Searches complete, writing report..."),
         RunEvent.stageWrite report,
         RunEvent.yielded (toText "Report written, sending email..."),
         RunEvent.stageEmail report.markdown_report,
         RunEvent.yielded (toText "Email sent, research complete"),
         RunEvent.yielded report.markdown_report] ∧
      (runPipeline O query questions answers).getLast? =
        some (RunEvent.yielded report.markdown_report)) :=
  ⟨rfl, ⟨_, _, _, rfl, rfl, rfl, rfl, rfl⟩⟩

/-- Claim C8: a blank research query makes the UI handler return an empty
question list, a hidden Q&A section, and the fixed message, without
invoking the research manager or the agent runtime (the agent-call log is
empty). -/
theorem c8_blank_query_short_circuits (runner : Text → FollowUpQuestions)
    (query : Text) (hblank : pyStrip query = []) :
    ui_generate_questions runner query =
      (([], { visible := false }, toText "Please enter a research topic first."), []) := by
  unfold ui_generate_questions
  simp [hblank]

/-- Witness for C8 at the whitespace-only query `" \t "`. -/
theorem c8_witness :
    pyStrip (toText " \t ") = [] ∧
    ui_generate_questions exQuestionsRunner (toText " \t ") =
      (([], { visible := false }, toText "Please enter a research topic first."), []) :=
  ⟨by decide, c8_blank_query_short_circuits exQuestionsRunner (toText " \t ") (by decide)⟩

/-- Claim C10: `plan_searches` pairs questions and answers positionally,
truncating to the shorter list (the unmatched tail is omitted from the
planner input), and still invokes the planner exactly once. -/
theorem c10_plan_searches_zip_truncates (runner : Text → WebSearchPlan)
    (query : Text) (questions answers : List Text) :
    (plan_searches runner query questions answers).2 =
      [plannerInput query questions answers] ∧
    plan_searches runner query questions answers =
      plan_searches runner query
        (questions.take (min questions.length answers.length))
        (answers.take (min questions.length answers.length)) := by
  refine ⟨rfl, ?_⟩
  unfold plan_searches plannerInput qaText
  rw [← zip_eq_zip_take_min]

/-- Claim C3: every request to `/webhook/email` either completes, giving
HTTP 200 with JSON status `processed`, or raises, in which case the
handler catches the exception and gives HTTP 500 with JSON status
`error`; no exception escapes (the handler is a total function of the
processing outcome).  The statement holds for every `ORDER BY` engine,
so it is insensitive to SQLite's unspecified tie order. -/
theorem c3_webhook_catches_all (engine : List MsgRow → List MsgRow)
    (gen : List MsgRow → Text → Except Text Text)
    (send : Text → Text → Text → SendResult) (now : Nat) (form : EmailForm)
    (db : DB) :
    ((processEmail engine gen send now form db).isOk = true ∧
     (receive_email engine gen send now form db).1.code = 200 ∧
     (receive_email engine gen send now form db).1.body.lookup (toText "status") =
       some (Json.str (toText "processed"))) ∨
    ((processEmail engine gen send now form db).isOk = false ∧
     (receive_email engine gen send now form db).1.code = 500 ∧
     (receive_email engine gen send now form db).1.body.lookup (toText "status") =
       some (Json.str (toText "error"))) := by
  cases hc : processEmail engine gen send now form db with
  | ok r =>
    have hshape := processEmail_ok_shape engine gen send now form db r hc
    have hre : receive_email engine gen send now form db = r := by
      unfold receive_email
      rw [hc]
    exact Or.inl ⟨rfl, by rw [hre]; exact hshape.1,
      by rw [hre]; exact hshape.2⟩
  | error ed =>
    have hre : receive_email engine gen send now form db =
        ({ code := 500,
           body := Json.obj [(toText "status", Json.str (toText "error")),
             (toText "message", Json.str ed.1)] }, ed.2) := by
      unfold receive_email
      rw [hc]
    exact Or.inr ⟨rfl, by rw [hre], by rw [hre]; rfl⟩

/-- Claim C5 counterexample: `CURRENT_TIMESTAMP` has one-second
granularity, so equal `created_at` values are the normal case, and SQLite
leaves the relative order of equal-key rows under
`ORDER BY created_at ASC` unspecified.  The tie-reversing engine is an
admissible behaviour (it returns a sorted permutation), yet on a thread
with two same-timestamp messages it returns them in the reverse of
arrival order — so the program does not guarantee the claimed arrival
order. -/
theorem c5_counterexample :
    SortsByCreatedAt exTieReversingEngine ∧
    get_conversation_history exTieReversingEngine (toText "t") exDB ≠
      exDB.messages.filter (fun m => m.thread_id == toText "t") :=
  ⟨exTieReversingEngine_valid, by decide⟩

/-- Claim C5 (amended): for every admissible `ORDER BY created_at ASC`
engine, `get_conversation_history` returns exactly the messages of the
thread (a permutation of the filtered rows), in non-decreasing
`created_at` order; when the thread's timestamps are strictly increasing
(no same-second ties), this is exactly the order in which the messages
arrived and were saved.  With equal timestamps the relative order is
unspecified. -/
theorem c5_history_sorted (engine : List MsgRow → List MsgRow)
    (db : DB) (tid : Text) (hengine : SortsByCreatedAt engine) :
    (get_conversation_history engine tid db).Perm
      (db.messages.filter (fun m => m.thread_id == tid)) ∧
    (get_conversation_history engine tid db).Pairwise
      (fun a b => a.created_at ≤ b.created_at) ∧
    ((db.messages.filter (fun m => m.thread_id == tid)).Pairwise
        (fun a b => a.created_at < b.created_at) →
      get_conversation_history engine tid db =
        db.messages.filter (fun m => m.thread_id == tid)) := by
  refine ⟨(hengine _).1, (hengine _).2, ?_⟩
  intro hstrict
  exact sorted_perm_eq_of_strict _ _ (hengine _).1 (hengine _).2 hstrict

/-- Witness for C5 (amended): the concrete stable engine on the database
whose thread `t` has strictly increasing timestamps. -/
theorem c5_witness :
    SortsByCreatedAt orderByCreatedAtAsc ∧
    (exDBStrict.messages.filter (fun m => m.thread_id == toText "t")).Pairwise
      (fun a b => a.created_at < b.created_at) ∧
    (get_conversation_history orderByCreatedAtAsc (toText "t") exDBStrict).Perm
      (exDBStrict.messages.filter (fun m => m.thread_id == toText "t")) ∧
    get_conversation_history orderByCreatedAtAsc (toText "t") exDBStrict =
      exDBStrict.messages.filter (fun m => m.thread_id == toText "t") :=
  ⟨orderByCreatedAtAsc_valid, by decide,
   (c5_history_sorted orderByCreatedAtAsc exDBStrict (toText "t")
     orderByCreatedAtAsc_valid).1,
   (c5_history_sorted orderByCreatedAtAsc exDBStrict (toText "t")
     orderByCreatedAtAsc_valid).2.2 (by decide)⟩

/-- Claim C6 counterexample: `get_or_create_conversation` on an existing
thread does not merely append — it rewrites the existing conversation
row's `updated_at` column, so the old table contents are not a prefix of
the new ones. -/
theorem c6_counterexample :
    ¬ (((get_or_create_conversation 1 (toText "a@b.c") (toText "A") (toText "hi")
          exDBC6).2).conversations.take exDBC6.conversations.length
        = exDBC6.conversations) := by
  decide

/-- Claim C6 (amended): the persistence layer never deletes a row;
`save_message` only appends one message row and leaves conversations
untouched; `get_or_create_conversation` leaves messages untouched and
preserves every existing conversation row field-for-field except that the
matched row's `updated_at` may be refreshed to the current timestamp. -/
theorem c6_append_only_except_updated_at (now : Nat)
    (pe pn subj tid dir sdr rcp su bo : Text) (db : DB) :
    ((save_message now tid dir sdr rcp su bo db).conversations = db.conversations ∧
     (save_message now tid dir sdr rcp su bo db).messages.take db.messages.length =
       db.messages ∧
     (save_message now tid dir sdr rcp su bo db).messages.length =
       db.messages.length + 1) ∧
    ((get_or_create_conversation now pe pn subj db).2.messages = db.messages ∧
     db.conversations.length ≤
       (get_or_create_conversation now pe pn subj db).2.conversations.length ∧
     ∀ i (hi : i < db.conversations.length),
       ∃ hj : i < (get_or_create_conversation now pe pn subj db).2.conversations.length,
         ((get_or_create_conversation now pe pn subj db).2.conversations.get
             ⟨i, hj⟩).thread_id = (db.conversations.get ⟨i, hi⟩).thread_id ∧
         ((get_or_create_conversation now pe pn subj db).2.conversations.get
             ⟨i, hj⟩).prospect_email = (db.conversations.get ⟨i, hi⟩).prospect_email ∧
         ((get_or_create_conversation now pe pn subj db).2.conversations.get
             ⟨i, hj⟩).prospect_name = (db.conversations.get ⟨i, hi⟩).prospect_name ∧
         ((get_or_create_conversation now pe pn subj db).2.conversations.get
             ⟨i, hj⟩).subject = (db.conversations.get ⟨i, hi⟩).subject ∧
         ((get_or_create_conversation now pe pn subj db).2.conversations.get
             ⟨i, hj⟩).status = (db.conversations.get ⟨i, hi⟩).status ∧
         ((get_or_create_conversation now pe pn subj db).2.conversations.get
             ⟨i, hj⟩).created_at = (db.conversations.get ⟨i, hi⟩).created_at ∧
         (((get_or_create_conversation now pe pn subj db).2.conversations.get
             ⟨i, hj⟩).updated_at = (db.conversations.get ⟨i, hi⟩).updated_at ∨
          ((get_or_create_conversation now pe pn subj db).2.conversations.get
             ⟨i, hj⟩).updated_at = now)) := by
  refine ⟨⟨rfl, ?_, by simp [save_message]⟩, ?_⟩
  · simp [save_message]
  · unfold get_or_create_conversation
    dsimp only []
    cases hf : db.conversations.find?
        (fun c => c.thread_id == generate_thread_id pe subj) with
    | none =>
      refine ⟨rfl, by simp, ?_⟩
      intro i hi
      refine ⟨by simp only [List.length_append, List.length_cons]; omega, ?_⟩
      simp [List.getElem_append_left hi]
    | some c0 =>
      refine ⟨rfl, by simp, ?_⟩
      intro i hi
      refine ⟨by simpa using hi, ?_⟩
      by_cases hcase : db.conversations[i].thread_id = generate_thread_id pe subj
      · simp [List.getElem_map, hcase]
      · simp [List.getElem_map, hcase]

/-- Witness for C6 (amended): at the concrete database whose only
conversation row is matched, exercising the bounded index quantifier at
index 0. -/
theorem c6_witness :
    (0 : Nat) < exDBC6.conversations.length ∧
    ((save_message 2 (toText "t") (toText "inbound") (toText "a") (toText "b")
        (toText "s") (toText "m") exDBC6).conversations = exDBC6.conversations ∧
     (save_message 2 (toText "t") (toText "inbound") (toText "a") (toText "b")
        (toText "s") (toText "m") exDBC6).messages.take exDBC6.messages.length =
       exDBC6.messages ∧
     (save_message 2 (toText "t") (toText "inbound") (toText "a") (toText "b")
        (toText "s") (toText "m") exDBC6).messages.length =
       exDBC6.messages.length + 1) ∧
    ((get_or_create_conversation 2 (toText "a@b.c") (toText "A") (toText "hi")
        exDBC6).2.messages = exDBC6.messages ∧
     exDBC6.conversations.length ≤
       (get_or_create_conversation 2 (toText "a@b.c") (toText "A") (toText "hi")
         exDBC6).2.conversations.length) := by
  have h := c6_append_only_except_updated_at 2 (toText "a@b.c") (toText "A")
    (toText "hi") (toText "t") (toText "inbound") (toText "a") (toText "b")
    (toText "s") (toText "m") exDBC6
  exact ⟨by decide, h.1, h.2.1, h.2.2.1⟩

/-- Claim C1 counterexample: the subjects `"rere::"` and `"rere:: "` are
equal after lowercasing, leading-prefix removal, and stripping, and the
sender is literally equal, yet `generate_thread_id` gives different
thread ids — because the code removes token occurrences anywhere (and a
removal can even create a new occurrence for a later pass), not just
leading prefixes. -/
theorem c1_counterexample :
    pyLower (toText "a@b.c") = pyLower (toText "a@b.c") ∧
    specNormalizeSubject (toText "rere::") = specNormalizeSubject (toText "rere:: ") ∧
    generate_thread_id (toText "a@b.c") (toText "rere::") ≠
      generate_thread_id (toText "a@b.c") (toText "rere:: ") :=
  ⟨rfl, by decide, by decide⟩

/-- Claim C1 (amended): `generate_thread_id` is a deterministic function
of the lower-cased sender and the code's cleaned subject (lower-case,
sequential removal of every occurrence of the six reply/forward tokens,
strip); and `get_or_create_conversation` returns exactly that thread id
on every call, whether or not the conversation row exists. -/
theorem c1_thread_id_deterministic (e1 s1 e2 s2 : Text)
    (he : pyLower e1 = pyLower e2) (hs : cleanSubject s1 = cleanSubject s2) :
    generate_thread_id e1 s1 = generate_thread_id e2 s2 ∧
    ∀ now pn db, (get_or_create_conversation now e1 pn s1 db).1 =
      generate_thread_id e1 s1 := by
  constructor
  · unfold generate_thread_id
    rw [he, hs]
  · intro now pn db
    unfold get_or_create_conversation
    dsimp only []
    cases db.conversations.find?
        (fun c => c.thread_id == generate_thread_id e1 s1) <;> rfl

/-- Witness for C1 (amended): senders differing in case, subjects
differing by a `Re:` prefix, and a call on a database missing the row. -/
theorem c1_witness :
    pyLower (toText "A@b.c") = pyLower (toText "a@B.C") ∧
    cleanSubject (toText "Re: hello") = cleanSubject (toText "hello") ∧
    generate_thread_id (toText "A@b.c") (toText "Re: hello") =
      generate_thread_id (toText "a@B.C") (toText "hello") ∧
    (get_or_create_conversation 7 (toText "A@b.c") (toText "N") (toText "Re: hello")
        exDB).1 = generate_thread_id (toText "A@b.c") (toText "Re: hello") := by
  have h := c1_thread_id_deterministic (toText "A@b.c") (toText "Re: hello")
    (toText "a@B.C") (toText "hello") (by decide) (by decide)
  exact ⟨by decide, by decide, h.1, h.2 7 (toText "N") exDB⟩

/-- Claim C7: every endpoint returns a JSON body; `/conversations` yields
one entry per conversation row (a permutation of the per-row entries),
each carrying `message_count` equal to the number of stored messages of
that thread; `/conversations/<thread_id>` returns the full message
history of the thread (exactly the thread's stored messages, in
non-decreasing `created_at` order; tie order is the engine's choice);
the webhook always answers with a status-tagged JSON object, and the
simulate endpoint does so whenever it completes.  Quantified over every
admissible `ORDER BY` engine. -/
theorem c7_endpoints_json (engine : List MsgRow → List MsgRow)
    (lengine : List ConvRow → List ConvRow) (db : DB) (tid : Text)
    (gen : List MsgRow → Text → Except Text Text)
    (send : Text → Text → Text → SendResult)
    (now : Nat) (form : EmailForm) (data : SimData)
    (hengine : SortsByCreatedAt engine)
    (hlengine : SortsByUpdatedAtDesc lengine) :
    health_check.body = Json.obj [(toText "status", Json.str (toText "healthy")),
      (toText "service", Json.str (toText "SDR Auto-Reply"))] ∧
    (∃ entries, (list_conversations lengine db).body = Json.arr entries ∧
      entries.Perm (db.conversations.map (convJson db)) ∧
      entries.length = db.conversations.length) ∧
    (∀ c ∈ db.conversations,
      (convJson db c).lookup (toText "message_count") =
        some (Json.num
          (db.messages.filter (fun m => m.thread_id == c.thread_id)).length)) ∧
    (∃ rows : List MsgRow,
      (get_conversation engine tid db).body = Json.arr (rows.map msgJson) ∧
      rows.Perm (db.messages.filter (fun m => m.thread_id == tid)) ∧
      rows.Pairwise (fun a b => a.created_at ≤ b.created_at)) ∧
    (∃ s, (receive_email engine gen send now form db).1.body.lookup (toText "status") =
      some (Json.str s)) ∧
    (∀ r db2,
      simulate_incoming_email engine gen send now data db = Except.ok (r, db2) →
      r.code = 200 ∧
      r.body.lookup (toText "status") = some (Json.str (toText "processed"))) := by
  refine ⟨rfl, ?_, ?_, ?_, ?_, ?_⟩
  · refine ⟨(lengine db.conversations).map (convJson db), rfl, ?_, ?_⟩
    · exact (hlengine db.conversations).1.map (convJson db)
    · simp [(hlengine db.conversations).1.length_eq]
  · intro c _
    rfl
  · exact ⟨get_conversation_history engine tid db, rfl, (hengine _).1, (hengine _).2⟩
  · cases hc : processEmail engine gen send now form db with
    | ok r =>
      refine ⟨toText "processed", ?_⟩
      unfold receive_email
      rw [hc]
      exact (processEmail_ok_shape engine gen send now form db r hc).2
    | error ed =>
      refine ⟨toText "error", ?_⟩
      unfold receive_email
      rw [hc]
      rfl
  · intro r db2 h
    unfold simulate_incoming_email at h
    dsimp only [] at h
    split at h <;>
      first
      | exact Except.noConfusion h
      | (rw [Except.ok.injEq, Prod.mk.injEq] at h
         exact ⟨by rw [← h.1], by rw [← h.1]; rfl⟩)

/-- Claim C9 counterexample: on the body whose first line is both quoted
and a reply marker (`"> On Mon wrote:"`), the marker line is skipped by
the quoted-line `continue` before the marker checks, so the content after
it (`"kept"`) survives in the output — refuting the claim that no content
appears at or after the first marker line. -/
theorem c9_counterexample : ¬ noContentAtOrAfterMarker exBodyC9 := by
  intro h
  have hmark : firstMarkerIdx (splitLines exBodyC9) = some 0 := by decide
  have hmem : toText "kept" ∈ splitLines (clean_email_body exBodyC9) := by decide
  have := h 0 hmark (toText "kept") hmem
  revert this
  decide

/-- Claim C9 (amended): `clean_email_body` is idempotent; its output has
no line whose stripped form starts with `>`; and no content of the input
at or after the first non-quoted marker line appears in the output
(quoted lines are skipped by `continue` before the marker checks, so a
quoted marker line does not stop the scan). -/
theorem c9_clean_email_body (body : Text) :
    clean_email_body (clean_email_body body) = clean_email_body body ∧
    (∀ l ∈ splitLines (clean_email_body body), startsGtLine l = false) ∧
    (∀ k, firstUnquotedMarkerIdx (splitLines body) = some k →
      ∀ l ∈ splitLines (clean_email_body body), pyStrip l = [] ∨
        ∃ lp ∈ (splitLines body).take k, pyStrip l = pyStrip lp) := by
  have hconds : ∀ l ∈ splitLines (clean_email_body body),
      startsGtLine l = false ∧ isOnWroteLine l = false ∧ isFromAtLine l = false ∧
        isDividerLine l = false ∧ isSigDelimLine l = false := by
    intro l hl
    rcases mem_clean_lines body l hl with h | ⟨lp, hlp, _, u, v, hdec, hu, hv⟩
    · subst h
      exact ⟨by decide, by decide, by decide, by decide, by decide⟩
    · exact conds_of_decomp hdec hu hv (keepLines_conds_false (splitLines body) lp hlp)
  refine ⟨?_, fun l hl => (hconds l hl).1, ?_⟩
  · rw [clean_email_body_def (clean_email_body body),
      keepLines_eq_self _ hconds, joinLines_splitLines,
      clean_email_body_def body]
    exact pyStrip_idem _
  · intro k hk l hl
    rcases mem_clean_lines body l hl with h | ⟨lp, hlp, hstrip, _, _, _, _, _⟩
    · left
      subst h
      rfl
    · right
      have hsub := keepLines_mem_takeWhile (splitLines body) lp hlp
      rw [takeWhile_eq_take_of_firstUnquoted (splitLines body) k hk] at hsub
      exact ⟨lp, hsub, hstrip⟩

/-- Witness for C9 (amended) on a body with fresh content, a quoted line,
and a non-quoted marker at index 2 followed by old content. -/
theorem c9_witness :
    clean_email_body (clean_email_body exBody2) = clean_email_body exBody2 ∧
    firstUnquotedMarkerIdx (splitLines exBody2) = some 2 ∧
    toText "hello" ∈ splitLines (clean_email_body exBody2) ∧
    (pyStrip (toText "hello") = [] ∨
      ∃ lp ∈ (splitLines exBody2).take 2, pyStrip (toText "hello") = pyStrip lp) :=
  ⟨(c9_clean_email_body exBody2).1, by decide, by decide,
   (c9_clean_email_body exBody2).2.2 2 (by decide) (toText "hello") (by decide)⟩

/-- Witness for C7 at the two-thread database, with the concrete stable
engines and concrete oracles and payloads. -/
theorem c7_witness :
    SortsByCreatedAt orderByCreatedAtAsc ∧
    SortsByUpdatedAtDesc orderByUpdatedAtDesc ∧
    (health_check.body = Json.obj [(toText "status", Json.str (toText "healthy")),
      (toText "service", Json.str (toText "SDR Auto-Reply"))] ∧
    (∃ entries, (list_conversations orderByUpdatedAtDesc exDB).body = Json.arr entries ∧
      entries.Perm (exDB.conversations.map (convJson exDB)) ∧
      entries.length = exDB.conversations.length) ∧
    (∀ c ∈ exDB.conversations,
      (convJson exDB c).lookup (toText "message_count") =
        some (Json.num
          (exDB.messages.filter (fun m => m.thread_id == c.thread_id)).length)) ∧
    (∃ rows : List MsgRow,
      (get_conversation orderByCreatedAtAsc (toText "t") exDB).body =
        Json.arr (rows.map msgJson) ∧
      rows.Perm (exDB.messages.filter (fun m => m.thread_id == toText "t")) ∧
      rows.Pairwise (fun a b => a.created_at ≤ b.created_at)) ∧
    (∃ s, (receive_email orderByCreatedAtAsc exGenOk exSendOk 5 exForm
        exDB).1.body.lookup (toText "status") = some (Json.str s)) ∧
    (∀ r db2,
      simulate_incoming_email orderByCreatedAtAsc exGenOk exSendOk 5 exSim exDB =
        Except.ok (r, db2) →
      r.code = 200 ∧
      r.body.lookup (toText "status") = some (Json.str (toText "processed")))) :=
  ⟨orderByCreatedAtAsc_valid, orderByUpdatedAtDesc_valid,
   c7_endpoints_json orderByCreatedAtAsc orderByUpdatedAtDesc exDB (toText "t")
     exGenOk exSendOk 5 exForm exSim orderByCreatedAtAsc_valid
     orderByUpdatedAtDesc_valid⟩

end Agents
